import Mathlib

/-!
Verification of the hybrid entity-extraction and reconciliation engine of the
`apo` calendar-to-spreadsheet synchronizer.

The Python source (`app/core/rules.py`, `app/core/normalizer.py`,
`app/core/extractor.py`, `app/core/schemas.py`, `app/adapters/sheets_client.py`,
`app/services/sync_service.py`) is shallowly embedded below.  Conventions:

* Python `str` values are modeled as Lean `String` / `List Char`; Python string
  operations (`strip`, `replace`, regular-expression scans over the fixed
  patterns appearing in the source) are implemented as executable functions on
  `List Char`.
* Python `float` confidence scores are modeled as exact rationals `ℚ`; the
  claims under study concern branch structure and arithmetic shape, not IEEE
  rounding.
* `datetime` values are modeled as a local wall-clock reading in seconds since
  the epoch together with an optional UTC offset in seconds (`none` = naive).
  `Asia/Tokyo` has been a fixed UTC+9 zone (no DST) for all relevant dates, so
  the `dateutil` zone object is modeled as the constant offset 32400 s.
* External collaborators (the Google Sheets / Calendar transport, the LLM
  backend, Python's `json.loads` on arbitrary text, `rapidfuzz` scoring) are
  modeled at their interface boundary: as explicit outcome values or function
  parameters, exactly where the source hands control to them.
* The spreadsheet worksheet is modeled as a `List (List String)` of data rows
  (the header row is not part of the model; Python row numbers are 2-based
  where our list indices are 0-based).
-/

/-! ### Python string primitives -/

/-- Characters stripped by Python's `str.strip()` and matched by the `\s`
class (plus the fullwidth space U+3000, which Python treats as whitespace and
which the source also lists explicitly in its character classes). -/
def pyIsSpace (c : Char) : Bool :=
  c = ' ' || c = '\t' || c = '\n' || c = '\r' || c = '\x0b' || c = '\x0c' || c = '　'

/-- Drop trailing characters satisfying `p` (helper for `pyStrip`). -/
def dropTrail (p : Char → Bool) (l : List Char) : List Char :=
  (l.reverse.dropWhile p).reverse

/-- Python `str.strip()`: remove leading and trailing whitespace. -/
def pyStrip (l : List Char) : List Char :=
  dropTrail pyIsSpace (l.dropWhile pyIsSpace)

/-- `pyStrip` on `String`. -/
def pyStripS (s : String) : String :=
  String.mk (pyStrip s.data)

/-- Python `str.replace(pat, rep)`: replace every non-overlapping occurrence of
`pat`, scanning left to right.  `fuel` bounds the recursion; calling it with
`fuel = s.length` is exact because every step consumes at least one character
(the guard also protects against the empty pattern, which the source never
uses). -/
def replaceAllAux (fuel : Nat) (pat rep : List Char) (s : List Char) : List Char :=
  match fuel, s with
  | 0, s => s
  | _, [] => []
  | fuel + 1, c :: rest =>
    if pat ≠ [] ∧ pat.isPrefixOf (c :: rest) then
      rep ++ replaceAllAux fuel pat rep ((c :: rest).drop pat.length)
    else
      c :: replaceAllAux fuel pat rep rest

/-- Python `str.replace` on `String`. -/
def pyReplace (s pat rep : String) : String :=
  String.mk (replaceAllAux s.data.length pat.data rep.data s.data)

/-- `occursIn pat l` holds when `pat` occurs as a contiguous substring of `l`
(Python's `pat in l`). -/
def occursIn (pat : List Char) : List Char → Bool
  | [] => pat.isPrefixOf []
  | c :: rest => pat.isPrefixOf (c :: rest) || occursIn pat rest

/-- Substring containment on `String` (Python's `in` operator for `str`). -/
def occursInS (pat s : String) : Bool :=
  occursIn pat.data s.data

/-- Index of the first occurrence of `pat` in `l`, if any. -/
def findSubstr (pat : List Char) : List Char → Option Nat
  | [] => if pat.isPrefixOf [] then some 0 else none
  | c :: rest =>
    if pat.isPrefixOf (c :: rest) then some 0
    else (findSubstr pat rest).map (· + 1)

/-- Number of non-overlapping occurrences of `pat` in `l`, scanning left to
right (Python's `str.count`); `fuel = l.length` makes the scan exact. -/
def countOccAux (fuel : Nat) (pat : List Char) (l : List Char) : Nat :=
  match fuel, l with
  | 0, _ => 0
  | _, [] => 0
  | fuel + 1, c :: rest =>
    if pat ≠ [] ∧ pat.isPrefixOf (c :: rest) then
      1 + countOccAux fuel pat ((c :: rest).drop pat.length)
    else
      countOccAux fuel pat rest

/-- Python `str.count` on `String`. -/
def pyCount (s pat : String) : Nat :=
  countOccAux s.data.length pat.data s.data

/-- Deduplicate a list keeping the first occurrence of each element.  This is
the deterministic stand-in for Python's `set`-based deduplication (`list(set
xs)`, whose iteration order is unspecified); every claim below is insensitive
to the order of the resulting list. -/
def dedupFirst (l : List String) : List String :=
  l.foldl (fun acc x => if x ∈ acc then acc else acc ++ [x]) []

/-- Python `sep.join(parts)`. -/
def joinSep (sep : String) (parts : List String) : String :=
  match parts with
  | [] => ""
  | p :: rest => rest.foldl (fun acc q => acc ++ sep ++ q) p

/-! ### Character classes of the source's regular expressions -/

/-- The class `[一-龯]` (CJK ideographs used for kanji in the source). -/
def isKanji (c : Char) : Bool :=
  0x4E00 ≤ c.toNat && c.toNat ≤ 0x9FAF

/-- The class `[あ-ん]` (hiragana as written in `rules.py`). -/
def isHiragana (c : Char) : Bool :=
  0x3042 ≤ c.toNat && c.toNat ≤ 0x3093

/-- The class `[ぁ-ん]` (hiragana including small ぁ). -/
def isHiraganaExt (c : Char) : Bool :=
  0x3041 ≤ c.toNat && c.toNat ≤ 0x3093

/-- The class `[ア-ン]` (katakana as written in the name patterns). -/
def isKatakana (c : Char) : Bool :=
  0x30A2 ≤ c.toNat && c.toNat ≤ 0x30F3

/-- The class `[ァ-ヶー]` (katakana including small forms and the long-vowel
mark). -/
def isKatakanaExt (c : Char) : Bool :=
  (0x30A1 ≤ c.toNat && c.toNat ≤ 0x30F6) || c = 'ー'

/-- The class `[一-龯ぁ-んァ-ヶー]` used by the honorific full-name check. -/
def isJapaneseNameChar (c : Char) : Bool :=
  isKanji c || isHiraganaExt c || isKatakanaExt c

/-- ASCII letter. -/
def isAsciiAlpha (c : Char) : Bool :=
  ('a' ≤ c && c ≤ 'z') || ('A' ≤ c && c ≤ 'Z')

/-- ASCII digit. -/
def isAsciiDigit (c : Char) : Bool :=
  '0' ≤ c && c ≤ '9'

/-- Lower-case an ASCII letter (for the `re.IGNORECASE` flag on `plus`). -/
def asciiLower (c : Char) : Char :=
  if 'A' ≤ c && c ≤ 'Z' then Char.ofNat (c.toNat + 32) else c

/-! ### `schemas.py`: the data model -/

/-- A Python `datetime`: the local wall-clock reading in seconds since the
epoch together with the UTC offset, in seconds, of its `tzinfo` (`none` =
naive).  `Asia/Tokyo` is the constant offset +9 h = 32400 s. -/
structure Datetime where
  wall : Int
  tz : Option Int
  deriving Repr, DecidableEq

/-- The `Asia/Tokyo` offset in seconds. -/
def tokyoOffset : Int := 32400

/-- The UTC instant denoted by an aware datetime (`none` for a naive one,
which denotes no absolute instant by itself). -/
def utcInstant (dt : Datetime) : Option Int :=
  dt.tz.map (fun off => dt.wall - off)

/-- The UTC instant of a datetime when a naive value is read as UTC (the
convention `BookingRecord.ensure_timezone` applies). -/
def instantAssumingUTC (dt : Datetime) : Int :=
  dt.wall - (dt.tz.getD 0)

/-- `BookingRecord.ensure_timezone` (`schemas.py`): a naive datetime is tagged
as UTC and converted to `Asia/Tokyo`; an aware one is converted from its own
zone.  `astimezone` keeps the instant and rewrites the wall clock. -/
def ensure_timezone (v : Datetime) : Datetime :=
  match v.tz with
  | none => { wall := v.wall + tokyoOffset, tz := some tokyoOffset }
  | some off => { wall := v.wall - off + tokyoOffset, tz := some tokyoOffset }

/-- Python's comparison of two datetimes: naive and aware values are not
comparable (`TypeError`), two naive values compare by wall clock, two aware
values compare by instant.  `none` models the raised `TypeError`. -/
def dtLt (a b : Datetime) : Option Bool :=
  match a.tz, b.tz with
  | none, none => some (decide (a.wall < b.wall))
  | some oa, some ob => some (decide (a.wall - oa < b.wall - ob))
  | _, _ => none

/-- Python's `a >= b` on datetimes, with the same `TypeError` behavior. -/
def dtGe (a b : Datetime) : Option Bool :=
  match a.tz, b.tz with
  | none, none => some (decide (b.wall ≤ a.wall))
  | some oa, some ob => some (decide (b.wall - ob ≤ a.wall - oa))
  | _, _ => none

/-- An attendee dictionary (`Dict[str, str]` in the source), as an
insertion-ordered association list. -/
abbrev AttendeeDict := List (String × String)

/-- `CalendarEvent` (`schemas.py`).  The Lean keyword `end` forces the field
name `end_` for the event's end time. -/
structure CalendarEvent where
  event_id : String
  title : String
  description : Option String := none
  start : Datetime
  end_ : Datetime
  timezone : String
  attendees : List AttendeeDict := []
  organizer : Option AttendeeDict := none
  location : Option String := none
  html_link : Option String := none
  updated : Datetime
  source_calendar : String
  deriving Repr, DecidableEq

/-- `ExtractedData` (`schemas.py`): an extraction candidate. -/
structure ExtractedData where
  company_name : Option String := none
  person_names : List String := []
  confidence : ℚ
  deriving Repr, DecidableEq

/-- The zero-confidence empty result `ExtractedData(confidence=0.0)`. -/
def emptyExtraction : ExtractedData := { confidence := 0 }

/-- Python truthiness of an optional string: `None` and `""` are falsy. -/
def truthyS (o : Option String) : Bool :=
  match o with
  | none => false
  | some s => !s.isEmpty

/-- JSON string escaping (backslash, then quote), as done by `json.dumps` for
the characters that can actually appear in the strings this system builds. -/
def escapeJson (s : String) : String :=
  pyReplace (pyReplace s "\\" "\\\\") "\"" "\\\""

/-- `json.dumps` of a list of strings with `ensure_ascii=False`
(the serialization applied to `person_names`). -/
def jsonDumpsStrList (l : List String) : String :=
  "[" ++ joinSep ", " (l.map (fun s => "\"" ++ escapeJson s ++ "\"")) ++ "]"

/-- `json.dumps` of one attendee dictionary. -/
def jsonDumpsDict (d : AttendeeDict) : String :=
  "\x7b" ++ joinSep ", "
    (d.map (fun kv => "\"" ++ escapeJson kv.1 ++ "\": \"" ++ escapeJson kv.2 ++ "\"")) ++ "\x7d"

/-- `json.dumps` of the attendee list. -/
def jsonDumpsAttendees (l : List AttendeeDict) : String :=
  "[" ++ joinSep ", " (l.map jsonDumpsDict) ++ "]"

/-- `BookingRecord` (`schemas.py`): the spreadsheet-output record.
`person_names` and `attendees` are stored as JSON text, exactly as the
pydantic validator `serialize_to_json` leaves them. -/
structure BookingRecord where
  event_id : String
  title : String
  company_name : Option String := none
  person_names : String := "[]"
  start_datetime : Datetime
  end_datetime : Datetime
  timezone : String := "Asia/Tokyo"
  attendees : String := "[]"
  location : Option String := none
  source_calendar : String
  extracted_confidence : Option ℚ := none
  status : String := "active"
  updated_at : Datetime
  run_id : Option String := none
  deriving Repr, DecidableEq

/-! ### `strftime` formatting

`_record_to_values` and `upsert_simple_record` format datetimes with
`strftime('%Y-%m-%d %H:%M:%S')` / `strftime('%Y-%m-%d')`, which read the
local (wall-clock) components.  Dates are computed with the standard
civil-from-days algorithm. -/

/-- Civil date `(year, month, day)` from days since 1970-01-01. -/
def civilFromDays (z0 : Int) : Int × Int × Int :=
  let z := z0 + 719468
  let era := z.fdiv 146097
  let doe := z - era * 146097
  let yoe := (doe - doe / 1460 + doe / 36524 - doe / 146096) / 365
  let y := yoe + era * 400
  let doy := doe - (365 * yoe + yoe / 4 - yoe / 100)
  let mp := (5 * doy + 2) / 153
  let d := doy - (153 * mp + 2) / 5 + 1
  let m := mp + (if mp < 10 then 3 else -9)
  (y + (if m ≤ 2 then 1 else 0), m, d)

/-- Zero-pad a natural number to `w` digits. -/
def padNum (w : Nat) (n : Int) : String :=
  let repr := toString n.toNat
  let pad := Nat.repeat (fun s => "0" ++ s) (w - repr.length) repr
  pad

/-- `strftime('%Y-%m-%d')`. -/
def fmtDate (dt : Datetime) : String :=
  let days := dt.wall.fdiv 86400
  let (y, m, d) := civilFromDays days
  padNum 4 y ++ "-" ++ padNum 2 m ++ "-" ++ padNum 2 d

/-- `strftime('%Y-%m-%d %H:%M:%S')`. -/
def fmtDateTime (dt : Datetime) : String :=
  let days := dt.wall.fdiv 86400
  let secs := dt.wall - days * 86400
  fmtDate dt ++ " " ++ padNum 2 (secs / 3600) ++ ":" ++ padNum 2 (secs / 60 % 60)
    ++ ":" ++ padNum 2 (secs % 60)

/-! ### `normalizer.py`: `DataNormalizer` -/

/-- `DataNormalizer.company_name_variations`, in dictionary insertion order
(the order in which `_normalize_company_name` applies the replacements). -/
def company_name_variations : List (String × String) :=
  [("㈱", "株式会社"), ("㈲", "有限会社"), ("㈳", "合同会社"), ("㈴", "一般社団法人"),
   ("㈵", "公益社団法人"), ("㈶", "一般財団法人"), ("㈷", "公益財団法人"),
   ("㈸", "社会福祉法人"), ("㈹", "学校法人"), ("㈺", "医療法人"), ("㈻", "宗教法人"),
   ("㈼", "特定非営利活動法人"),
   ("Inc", "Inc."), ("LLC", "LLC"), ("Ltd", "Ltd."), ("Corp", "Corp."), ("Co", "Co.")]

/-- `DataNormalizer._normalize_company_name`: strip, apply the variation
table with `str.replace`, strip again, collapse the empty result to `None`. -/
def normalize_company_name (company_name : Option String) : Option String :=
  match company_name with
  | none => none
  | some s =>
    if s.isEmpty then none
    else
      let normalized := pyStripS s
      let normalized :=
        company_name_variations.foldl (fun acc pr => pyReplace acc pr.1 pr.2) normalized
      let normalized := pyStripS normalized
      if normalized.isEmpty then none else some normalized

/-- The character-level effect of `DataNormalizer.name_normalization_rules`.
The first four rules, `re.sub` of `([一-龯]` + a 2-to-4 repetition +
`)様$ -> \1様` (likewise for さん, 氏, 殿), rewrite each match to exactly the
text it matched — group 1 plus the same honorific — so they leave every
string unchanged and contribute nothing here.  The remaining five rules are
substitutions of one literal character: fullwidth space, parentheses and
square brackets to their halfwidth forms. -/
def nameRuleChar (c : Char) : Char :=
  if c = '　' then ' '
  else if c = '（' then '('
  else if c = '）' then ')'
  else if c = '［' then '['
  else if c = '］' then ']'
  else c

/-- `re.sub` over the `name_normalization_rules` table (see `nameRuleChar`). -/
def applyNameRules (l : List Char) : List Char :=
  l.map nameRuleChar

/-- One name's pass through `_normalize_person_names`: strip, apply the rules,
strip again. -/
def normalizeOneName (l : List Char) : List Char :=
  pyStrip (applyNameRules (pyStrip l))

/-- All-digit check: `re.match(r'^[0-9]+$', name)`. -/
def matchesAllDigits (l : List Char) : Bool :=
  !l.isEmpty && l.all isAsciiDigit

/-- The local-part class `[a-zA-Z0-9._%+-]` of the e-mail pattern. -/
def isEmailLocalChar (c : Char) : Bool :=
  isAsciiAlpha c || isAsciiDigit c || c = '.' || c = '_' || c = '%' || c = '+' || c = '-'

/-- The domain class `[a-zA-Z0-9.-]` of the e-mail pattern. -/
def isEmailDomainChar (c : Char) : Bool :=
  isAsciiAlpha c || isAsciiDigit c || c = '.' || c = '-'

/-- Full match of `[a-zA-Z0-9.-]+\.[a-zA-Z]{2,}$`: some split at a dot leaves
a non-empty domain head and a 2+-letter alphabetic tail.  Because the tail is
dot-free, the only split that can work is at the last dot. -/
def matchesDomainTail (l : List Char) : Bool :=
  (List.range l.length).any fun p =>
    0 < p && l.getD p ' ' = '.' &&
      decide (p + 2 ≤ l.length) &&
      (l.take p).all isEmailDomainChar &&
      (l.drop (p + 1)).all isAsciiAlpha

/-- Full match of the e-mail pattern
`^[a-zA-Z0-9._%+-]+@[a-zA-Z0-9.-]+\.[a-zA-Z]{2,}$`.  `@` belongs to neither
class, so the match must split at an `@`. -/
def matchesEmail (l : List Char) : Bool :=
  (List.range l.length).any fun i =>
    0 < i && l.getD i ' ' = '@' &&
      (l.take i).all isEmailLocalChar &&
      matchesDomainTail (l.drop (i + 1))

/-- Prefix match of `^https?://`. -/
def matchesUrl (l : List Char) : Bool :=
  "http://".data.isPrefixOf l || "https://".data.isPrefixOf l

/-- Full match of `^[　\s]+$` (whitespace-only). -/
def matchesWhitespaceOnly (l : List Char) : Bool :=
  !l.isEmpty && l.all pyIsSpace

/-- `DataNormalizer._is_valid_person_name`: length at least 2 and none of the
four invalid patterns (all digits, e-mail, URL, whitespace-only); `re.match`
anchors each pattern at the start, and these patterns are fully anchored. -/
def normalizerIsValidPersonName (name : List Char) : Bool :=
  if name.isEmpty || name.length < 2 then false
  else
    !(matchesAllDigits name || matchesEmail name || matchesUrl name ||
      matchesWhitespaceOnly name)

/-- `DataNormalizer._normalize_person_names`: skip falsy entries, normalize
each name, keep it only when non-empty and valid. -/
def normalize_person_names (person_names : List String) : List String :=
  person_names.filterMap fun name =>
    if name.isEmpty then none
    else
      let normalized := normalizeOneName name.data
      if !normalized.isEmpty && normalizerIsValidPersonName normalized then
        some (String.mk normalized)
      else none

/-- `DataNormalizer.normalize_extracted_data`: normalize the company name and
the person names, then deduplicate the person names (`list(set(...))`,
modeled keeping first occurrences). -/
def normalize_extracted_data (extracted : ExtractedData) : ExtractedData :=
  { company_name := normalize_company_name extracted.company_name
    person_names := dedupFirst (normalize_person_names extracted.person_names)
    confidence := extracted.confidence }

/-- The outcome of `DataNormalizer.validate_booking_record`. -/
structure ValidationResult where
  is_valid : Bool
  errors : List String
  warnings : List String
  deriving Repr, DecidableEq

/-- `DataNormalizer.validate_booking_record`.  The required-field checks on
`start_datetime`/`end_datetime` can never fire: both are required pydantic
fields and `datetime` objects are always truthy.  The body runs in a `try`
block whose `except Exception` marks the record invalid with a generic
message, so a `TypeError` from a datetime comparison (`dtGe`/`dtLt` returning
`none`, i.e. one side aware and the other naive) aborts the remaining checks.
In particular, for every record built by the pipeline the start/end values are
`Asia/Tokyo`-aware while `now = datetime.now()` is naive, so the past-start
warning check always raises and the confidence, status and JSON checks are
never reached.  `jsonParses` is the success predicate of Python's
`json.loads` on the two serialized list fields. -/
def validate_booking_record (jsonParses : String → Bool) (now : Datetime)
    (record : BookingRecord) : ValidationResult :=
  let presenceErrors :=
    (if record.event_id.isEmpty then ["event_idが必須です"] else []) ++
    (if record.title.isEmpty then ["titleが必須です"] else [])
  let exceptionMsg := "バリデーション中にエラーが発生しました: TypeError"
  match dtGe record.start_datetime record.end_datetime with
  | none =>
    { is_valid := false, errors := presenceErrors ++ [exceptionMsg], warnings := [] }
  | some ge =>
    let orderErrors :=
      if ge then ["開始時刻は終了時刻より前である必要があります"] else []
    match dtLt record.start_datetime now with
    | none =>
      { is_valid := false
        errors := presenceErrors ++ orderErrors ++ [exceptionMsg]
        warnings := [] }
    | some past =>
      let pastWarnings := if past then ["開始時刻が過去の日時です"] else []
      let confWarnings :=
        match record.extracted_confidence with
        | some conf => if conf < 1/2 then ["抽出信頼度が低いです（0.5未満）"] else []
        | none => []
      let statusErrors :=
        if record.status ∈ ["active", "removed", "cancelled"] then []
        else ["無効なステータスです: " ++ record.status]
      let jsonErrors :=
        (if jsonParses record.person_names then []
          else ["person_namesが有効なJSONではありません"]) ++
        (if jsonParses record.attendees then []
          else ["attendeesが有効なJSONではありません"])
      let errors := presenceErrors ++ orderErrors ++ statusErrors ++ jsonErrors
      { is_valid := errors.isEmpty
        errors := errors
        warnings := pastWarnings ++ confWarnings }

/-! ### `rules.py`: `RuleBasedExtractor`

The extractor's two mutable dictionaries are made explicit parameters, as the
spec prescribes: `existing` is `self.existing_companies` (empty at
construction, refreshed from the sheet between passes) and the
domain-to-company map is the constructed default.  `rapidfuzz`'s
`process.extractOne(..., scorer=token_sort_ratio, score_cutoff=80)` is an
external scoring library and is modeled as the oracle parameter `fuzzy`; the
source only consults it when the known-company set is non-empty. -/

/-- `RuleBasedExtractor.company_suffixes`. -/
def company_suffixes : List String :=
  ["株式会社", "有限会社", "合同会社", "一般社団法人", "公益社団法人",
   "一般財団法人", "公益財団法人", "社会福祉法人", "学校法人",
   "医療法人", "宗教法人", "特定非営利活動法人",
   "Inc.", "LLC", "Ltd.", "Corp.", "Corporation",
   "Co.", "Company", "Limited"]

/-- `RuleBasedExtractor.domain_company_map` (constructed default). -/
def domain_company_map : List (String × String) :=
  [("example.co.jp", "Example株式会社"), ("sample.com", "Sample Inc.")]

/-- Generic scanner for `re.findall` over the fixed patterns of `rules.py`:
`matchAt` attempts a match anchored at the current position and returns the
matched text together with the remainder; on failure the scan advances one
character, on success it continues after the match (non-overlapping, left to
right).  `fuel = l.length` makes the scan exact since every match consumes at
least one character. -/
def scanFindall (matchAt : List Char → Option (List Char × List Char)) :
    Nat → List Char → List (List Char)
  | 0, _ => []
  | _, [] => []
  | fuel + 1, c :: rest =>
    match matchAt (c :: rest) with
    | some (m, restAfter) => m :: scanFindall matchAt fuel restAfter
    | none => scanFindall matchAt fuel rest

/-- `re.findall` driver. -/
def findallWith (matchAt : List Char → Option (List Char × List Char))
    (l : List Char) : List (List Char) :=
  scanFindall matchAt l.length l

/-- Anchored match of `[cls]` repeated `lo` to `hi` times (greedy, so longer
repetitions are tried first) followed by one of `tails` (tried in alternation
order).  Returns the whole matched text and the remainder — the regex engine's
backtracking over a bounded greedy repetition followed by a literal
alternation behaves exactly like this descending search. -/
def greedyRepThen (cls : Char → Bool) (lo hi : Nat) (tails : List (List Char))
    (l : List Char) : Option (List Char × List Char) :=
  ((List.range (hi + 1 - lo)).map (fun i => hi - i)).findSome? fun k =>
    if lo ≤ k ∧ k ≤ l.length ∧ (l.take k).all cls then
      tails.findSome? fun suf =>
        if suf.isPrefixOf (l.drop k) then
          some (l.take k ++ suf, l.drop (k + suf.length))
        else none
    else none

/-- Anchored match of `([^　\s]+SUFFIX)` (the `_find_companies_by_suffix`
pattern for one escaped suffix). -/
def matchCompanySuffixAt (suffix : List Char) (l : List Char) :
    Option (List Char × List Char) :=
  greedyRepThen (fun c => !pyIsSpace c) 1 l.length [suffix] l

/-- `RuleBasedExtractor._find_companies_by_suffix`: for each suffix, findall
of `([^　\s]+suffix)`, extending one candidate list. -/
def find_companies_by_suffix (text : String) : List String :=
  company_suffixes.foldl
    (fun acc suffix =>
      acc ++ (findallWith (matchCompanySuffixAt suffix.data) text.data).map String.mk)
    []

/-- Anchored match of the e-mail pattern
`([a-zA-Z0-9._%+-]+@[a-zA-Z0-9.-]+\.[a-zA-Z]{2,})`.  `@` belongs to neither
character class, so the greedy local part must be the full run before an
`@`; the greedy domain run then backtracks to the largest split `p` whose dot
is followed by two or more letters. -/
def matchEmailAt (l : List Char) : Option (List Char × List Char) :=
  let run1 := l.takeWhile isEmailLocalChar
  if run1.isEmpty then none
  else
    match l.drop run1.length with
    | '@' :: afterAt =>
      let run2 := afterAt.takeWhile isEmailDomainChar
      ((List.range run2.length).map (fun i => run2.length - 1 - i)).findSome? fun p =>
        if 0 < p ∧ run2.getD p ' ' = '.' then
          let alphaRun := (run2.drop (p + 1)).takeWhile isAsciiAlpha
          if 2 ≤ alphaRun.length then
            let matched := run1 ++ '@' :: (run2.take p ++ '.' :: alphaRun)
            some (matched, l.drop matched.length)
          else none
        else none
    | _ => none

/-- `RuleBasedExtractor._extract_company_from_domain`: find e-mail addresses
in the text and return the mapped company of the first whose domain
(`email.split('@')[1]`) is a key of the domain map. -/
def extract_company_from_domain (text : String) : Option String :=
  (findallWith matchEmailAt text.data).findSome? fun email =>
    let domain := String.mk ((email.dropWhile (· ≠ '@')).drop 1)
    domain_company_map.lookup domain

/-- `RuleBasedExtractor._find_existing_company_match`: `None` when the
known-company set is empty, otherwise the `rapidfuzz` oracle's answer. -/
def find_existing_company_match (existing : List String)
    (fuzzy : String → List String → Option String) (text : String) : Option String :=
  if existing.isEmpty then none else fuzzy text existing

/-- The delimiter class `[\|/／・×x\-—~〜]` splitting the title head. -/
def titleDelimiters : List Char :=
  ['|', '/', '／', '・', '×', 'x', '-', '—', '~', '〜']

/-- The generic company-noun list of `_extract_company_from_title`. -/
def generic_terms : List String :=
  ["商事", "工業", "製作所", "不動産", "銀行", "信用金庫", "センター", "研究所"]

/-- `company_endings` of `_extract_company_from_title`, duplicates included
as written in the source. -/
def company_endings : List String :=
  ["プラス", "plus", "Plus", "サービス", "service", "Service",
   "ソリューション", "solution", "Solution", "クリニック", "clinic", "Clinic",
   "クリニック", "クリニック", "クリニック", "クリニック", "クリニック"]

/-- A `(プラス|plus|Plus)` token at the head of `l`, with `re.IGNORECASE`
making the latin alternatives fully case-insensitive. -/
def plusTokenAt (l : List Char) : Bool :=
  "プラス".data.isPrefixOf l || (l.take 4).map asciiLower = "plus".data

/-- `re.match(r'^[cls]+(プラス|plus|Plus)', head, re.IGNORECASE)`: some
non-empty class run followed by a plus token. -/
def classThenPlus (cls : Char → Bool) (l : List Char) : Bool :=
  (List.range l.length).any fun k =>
    0 < k && (l.take k).all cls && plusTokenAt (l.drop k)

/-- `RuleBasedExtractor._extract_company_from_title`: split the title at the
first delimiter, strip the head, and accept it on any of the source's eight
shape tests, in order. -/
def extract_company_from_title (title : String) : Option String :=
  if title.isEmpty then none
  else
    let head := pyStrip (title.data.takeWhile (fun c => !titleDelimiters.contains c))
    if head.isEmpty then none
    else if company_suffixes.any (fun suf => occursIn suf.data head) then
      some (String.mk head)
    else if generic_terms.any (fun t => occursIn t.data head) then
      some (String.mk head)
    else if classThenPlus isKatakanaExt head then some (String.mk head)
    else if classThenPlus isHiragana head then some (String.mk head)
    else if classThenPlus isKanji head then some (String.mk head)
    else if company_endings.any (fun e => e.data.isSuffixOf head && 3 ≤ head.length) then
      some (String.mk head)
    else if 3 ≤ head.length && head.all isKatakanaExt then some (String.mk head)
    else if 3 ≤ head.length && head.all isHiragana then some (String.mk head)
    else none

/-- `RuleBasedExtractor._select_best_company_candidate`: a single candidate is
returned as is; otherwise each candidate scores
`count-in-context * 0.6 + min(len/20, 1) * 0.4` and the first strictly
greater than the running best (initially `None` at score 0) wins. -/
def select_best_company_candidate (candidates : List String) (context : String) :
    Option String :=
  match candidates with
  | [] => none
  | [c] => some c
  | _ =>
    (candidates.foldl
      (fun (best : Option String × ℚ) candidate =>
        let frequency : ℚ := pyCount context candidate
        let length_score : ℚ := min ((candidate.length : ℚ) / 20) 1
        let score := frequency * (6/10) + length_score * (4/10)
        if best.2 < score then (some candidate, score) else best)
      (none, 0)).1

/-- `RuleBasedExtractor._extract_company_name`: title head first, then the
suffix / domain / known-company candidates, best candidate last. -/
def extract_company_name (existing : List String)
    (fuzzy : String → List String → Option String) (text_data : String) :
    Option String :=
  if text_data.isEmpty then none
  else
    match extract_company_from_title text_data with
    | some titleBased => some titleBased
    | none =>
      let candidates := find_companies_by_suffix text_data
      let candidates := candidates ++
        (match extract_company_from_domain text_data with
          | some d => [d] | none => [])
      let candidates := candidates ++
        (match find_existing_company_match existing fuzzy text_data with
          | some m => [m] | none => [])
      if candidates.isEmpty then none
      else select_best_company_candidate candidates text_data

/-- Full (both-ends anchored) match of a class repetition, for the patterns
`^[一-龯]{2,4}$`, `^[あ-ん]{2,6}$`, `^[ア-ン]{2,6}$`: with no `re.MULTILINE`,
`re.findall` on such a pattern yields the whole text or nothing. -/
def fullMatchClass (cls : Char → Bool) (lo hi : Nat) (l : List Char) : Bool :=
  lo ≤ l.length && l.length ≤ hi && l.all cls

/-- Anchored match of the spaced full-name pattern
`([一-龯]{1,3}[　\s][一-龯]{1,3})(?:様|さん|先生|氏)?`: greedy kanji run, one
whitespace character, greedy kanji run, then an optional honorific that is
consumed but not captured (the captured group is the spaced name alone). -/
def matchSpacedNameAt (l : List Char) : Option (List Char × List Char) :=
  ([3, 2, 1] : List Nat).findSome? fun k1 =>
    if k1 ≤ l.length ∧ (l.take k1).all isKanji then
      match l.drop k1 with
      | w :: rest2 =>
        if pyIsSpace w then
          ([3, 2, 1] : List Nat).findSome? fun k2 =>
            if k2 ≤ rest2.length ∧ (rest2.take k2).all isKanji then
              let group := l.take k1 ++ w :: rest2.take k2
              let after := rest2.drop k2
              let honLen :=
                match ["様".data, "さん".data, "先生".data, "氏".data].find?
                    (fun h => h.isPrefixOf after) with
                | some h => h.length
                | none => 0
              some (group, after.drop honLen)
            else none
        else none
      | [] => none
    else none

/-- The kana class `[ぁ-んァ-ヶー]` of the kana-honorific pattern. -/
def isKanaChar (c : Char) : Bool :=
  isHiraganaExt c || isKatakanaExt c

/-- `RuleBasedExtractor._extract_names_from_text`: the three fully anchored
name-shape patterns, the kanji + 様/さん pattern, the kanji + 先生/氏 pattern,
the spaced full-name pattern, and the kana + さん/様 pattern, in source
order. -/
def extract_names_from_text (text : String) : List String :=
  let t := text.data
  (if fullMatchClass isKanji 2 4 t then [text] else []) ++
  (if fullMatchClass isHiragana 2 6 t then [text] else []) ++
  (if fullMatchClass isKatakana 2 6 t then [text] else []) ++
  (findallWith (greedyRepThen isKanji 1 4 ["様".data, "さん".data]) t).map String.mk ++
  (findallWith (greedyRepThen isKanji 1 4 ["先生".data, "氏".data]) t).map String.mk ++
  (findallWith matchSpacedNameAt t).map String.mk ++
  (findallWith (greedyRepThen isKanaChar 2 10 ["さん".data, "様".data]) t).map String.mk

/-- The role/occasion denylist `ng_terms` of `_is_valid_person_name`. -/
def ng_terms : List String :=
  ["コーチング", "コーチ", "セラピスト", "カウンセラー", "面談", "商談",
   "打合せ", "打ち合わせ", "ミーティング"]

/-- Full match of `[一-龯ぁ-んァ-ヶー]{1,10}(様|さん|先生|氏)$` (as used by
`re.match`, which anchors the start; the `$` anchors the end). -/
def matchHonorificFullName (l : List Char) : Bool :=
  (List.range 10).any fun k0 =>
    let k := k0 + 1
    decide (k ≤ l.length) && (l.take k).all isJapaneseNameChar &&
      ["様".data, "さん".data, "先生".data, "氏".data].any (fun h => l.drop k = h)

/-- `RuleBasedExtractor._is_valid_person_name`: length at least 2; no company
suffix, denylist term or `@`; then one of the Japanese name shapes or an
honorific-suffixed name. -/
def rulesIsValidPersonName (name : String) : Bool :=
  if name.isEmpty || name.length < 2 then false
  else if company_suffixes.any (fun suf => occursInS suf name) then false
  else if ng_terms.any (fun t => occursInS t name) then false
  else if occursInS "@" name then false
  else if fullMatchClass isKanji 2 4 name.data then true
  else if fullMatchClass isHiragana 2 6 name.data then true
  else if fullMatchClass isKatakana 2 6 name.data then true
  else matchHonorificFullName name.data

/-- The subset of an event's `dict()` that `RuleBasedExtractor` reads. -/
structure EventData where
  title : String
  description : Option String := none
  location : Option String := none
  attendees : List AttendeeDict := []
  deriving Repr, DecidableEq

/-- The truthy `displayName` of an attendee dictionary, if any. -/
def attendeeDisplayName (a : AttendeeDict) : Option String :=
  match a.lookup "displayName" with
  | some dn => if dn.isEmpty then none else some dn
  | none => none

/-- `RuleBasedExtractor._extract_person_names`: attendee display names that
pass the validity predicate (stripped first), united with the text-mined
names; Python's `set` union is modeled as first-occurrence deduplication. -/
def extract_person_names (ev : EventData) (text_data : String) : List String :=
  let attendeeNames := ev.attendees.filterMap fun a =>
    match attendeeDisplayName a with
    | some dn =>
      let name := pyStripS dn
      if rulesIsValidPersonName name then some name else none
    | none => none
  dedupFirst (attendeeNames ++ extract_names_from_text text_data)

/-- The leading `【B】` removal `re.sub(r'^[\s　]*【B】', '', title)`: the tag
(with any leading whitespace) is removed when present, otherwise the title is
unchanged. -/
def stripBTag (t : List Char) : List Char :=
  let rest := t.dropWhile pyIsSpace
  if "【B】".data.isPrefixOf rest then rest.drop 3 else t

/-- `RuleBasedExtractor._collect_text_data`: title (tag removed), the forced
title-head candidate when present, description, location and attendee display
names, joined with single spaces. -/
def collect_text_data (ev : EventData) : String :=
  let parts :=
    (if ev.title.isEmpty then []
     else
       let title := String.mk (stripBTag ev.title.data)
       [title] ++
         (match extract_company_from_title title with
          | some forced => if forced.isEmpty then [] else [forced]
          | none => [])) ++
    (match ev.description with
     | some d => if d.isEmpty then [] else [d]
     | none => []) ++
    (match ev.location with
     | some loc => if loc.isEmpty then [] else [loc]
     | none => []) ++
    ev.attendees.filterMap attendeeDisplayName
  joinSep " " parts

/-- `RuleBasedExtractor._calculate_confidence`: additive score capped at 1. -/
def calculate_confidence (existing : List String) (company_name : Option String)
    (person_names : List String) (text_data : String) : ℚ :=
  let companyScore : ℚ :=
    if truthyS company_name then
      let cn := company_name.getD ""
      if company_suffixes.any (fun suf => occursInS suf cn) then 4/10
      else if cn ∈ existing then 3/10
      else if domain_company_map.any (fun pr => occursInS pr.1 text_data) then 2/10
      else 1/10
    else 0
  let personScore : ℚ :=
    if person_names.isEmpty then 0
    else (3/10) + (if 1 < person_names.length then 2/10 else 1/10)
  let textScore : ℚ := if 50 < text_data.length then 1/10 else 0
  min (companyScore + personScore + textScore) 1

/-- `RuleBasedExtractor.extract_from_event`. -/
def rules_extract_from_event (existing : List String)
    (fuzzy : String → List String → Option String) (ev : EventData) :
    ExtractedData :=
  let text_data := collect_text_data ev
  let company_name := extract_company_name existing fuzzy text_data
  let person_names := extract_person_names ev text_data
  { company_name := company_name
    person_names := person_names
    confidence := calculate_confidence existing company_name person_names text_data }

/-! ### `extractor.py`: `AIExtractor` and `HybridExtractor` -/

/-- The boundary with the LLM backend, per event: the lazily initialized
client may be absent (`noClient`: unsupported provider, missing library or
failed construction), the query may raise (`queryError`), or it returns the
backend's free-form text. -/
inductive LLMOutcome where
  | noClient
  | queryError
  | reply (text : String)
  deriving Repr, DecidableEq

/-- The typed shape `AIExtractor._parse_llm_response` reads out of the JSON
object: `data.get('company_name')`, `data.get('person_names', [])`,
`data.get('confidence', 0.0)`, already coerced by the pydantic validators of
`ExtractedData`. -/
structure LLMFields where
  company_name : Option String := none
  person_names : List String := []
  confidence : ℚ := 0
  deriving Repr, DecidableEq

/-- The fenced-block search `re.search(r'```json\s*(.*?)\s*```', response,
re.DOTALL)`: when a ```` ```json ```` fence and a later closing fence exist,
the captured group is the text between them with surrounding whitespace
absorbed by the greedy `\s*`s; otherwise the whole response is used. -/
def extractJsonStr (response : String) : String :=
  match findSubstr "```json".data response.data with
  | none => response
  | some i =>
    let after := response.data.drop (i + 7)
    match findSubstr "```".data after with
    | none => response
    | some j => String.mk (pyStrip (after.take j))

/-- `AIExtractor._parse_llm_response`: isolate the JSON text, hand it to the
`json.loads` boundary (`parseJson`, `none` = `JSONDecodeError`), and build an
`ExtractedData`; a parse failure, or a confidence outside the pydantic bounds
`[0, 1]` (whose `ValidationError` the generic handler also catches), degrades
to the zero-confidence empty result. -/
def parse_llm_response (parseJson : String → Option LLMFields)
    (response : String) : ExtractedData :=
  match parseJson (extractJsonStr response) with
  | none => emptyExtraction
  | some fields =>
    if 0 ≤ fields.confidence ∧ fields.confidence ≤ 1 then
      { company_name := fields.company_name
        person_names := fields.person_names
        confidence := fields.confidence }
    else emptyExtraction

/-- `AIExtractor.extract_from_event`: no client or a raised query error gives
the empty result; a reply is parsed. -/
def ai_extract_from_event (parseJson : String → Option LLMFields)
    (outcome : LLMOutcome) : ExtractedData :=
  match outcome with
  | .noClient => emptyExtraction
  | .queryError => emptyExtraction
  | .reply text => parse_llm_response parseJson text

/-- `HybridExtractor._merge_company_names`: Python truthiness on both sides
(`None` and `""` are "no name"), then the higher individual confidence wins
with ties to the rule side. -/
def merge_company_names (rule_company ai_company : Option String)
    (rule_confidence ai_confidence : ℚ) : Option String :=
  if !truthyS rule_company && !truthyS ai_company then none
  else if !truthyS rule_company then ai_company
  else if !truthyS ai_company then rule_company
  else if ai_confidence ≤ rule_confidence then rule_company
  else ai_company

/-- `HybridExtractor._merge_person_names`: one empty side yields the other;
otherwise the higher-confidence side's list (ties to the rule side) is the
base, extended with the other side's unseen names in order. -/
def merge_person_names (rule_names ai_names : List String)
    (rule_confidence ai_confidence : ℚ) : List String :=
  if rule_names.isEmpty && ai_names.isEmpty then []
  else if rule_names.isEmpty then ai_names
  else if ai_names.isEmpty then rule_names
  else if ai_confidence ≤ rule_confidence then
    rule_names ++ ai_names.filter (fun n => n ∉ rule_names)
  else
    ai_names ++ rule_names.filter (fun n => n ∉ ai_names)

/-- `HybridExtractor._calculate_merged_confidence`: weighted average plus the
richness bonus, clamped to `[0, 1]`. -/
def calculate_merged_confidence (rule_confidence ai_confidence : ℚ)
    (company_name : Option String) (person_names : List String) : ℚ :=
  let base := rule_confidence * (6/10) + ai_confidence * (4/10)
  let base :=
    if truthyS company_name && !person_names.isEmpty then base + 1/10
    else if truthyS company_name || !person_names.isEmpty then base + 1/20
    else base
  min (max base 0) 1

/-- `HybridExtractor._merge_and_validate_results`. -/
def merge_and_validate_results (rule_result ai_result : ExtractedData) :
    ExtractedData :=
  let company_name := merge_company_names rule_result.company_name
    ai_result.company_name rule_result.confidence ai_result.confidence
  let person_names := merge_person_names rule_result.person_names
    ai_result.person_names rule_result.confidence ai_result.confidence
  { company_name := company_name
    person_names := person_names
    confidence := calculate_merged_confidence rule_result.confidence
      ai_result.confidence company_name person_names }

/-- `HybridExtractor.extract_from_event`, with the rule-based result already
computed and the AI extractor as a suspended call; the boolean records
whether the AI extractor was invoked.  The constructed default threshold is
0.8 (`set_confidence_threshold` can reconfigure it). -/
def hybrid_extract_from_event (confidence_threshold : ℚ)
    (rule_result : ExtractedData) (ai : Unit → ExtractedData) :
    ExtractedData × Bool :=
  if confidence_threshold ≤ rule_result.confidence then (rule_result, false)
  else (merge_and_validate_results rule_result (ai ()), true)

/-- The constructed default `confidence_threshold = 0.8`. -/
def defaultConfidenceThreshold : ℚ := 8/10

/-- The `CalendarEvent.dict()` view read by the rule-based extractor. -/
def evToEventData (ev : CalendarEvent) : EventData :=
  { title := ev.title
    description := ev.description
    location := ev.location
    attendees := ev.attendees }

/-- The composed hybrid extraction for one event: rule-based pass over the
event's `dict()`, then the AI fallback when the threshold is not reached.
`aiOutcome` is the per-event LLM boundary. -/
def full_hybrid_extract (confidence_threshold : ℚ) (existing : List String)
    (fuzzy : String → List String → Option String)
    (parseJson : String → Option LLMFields)
    (aiOutcome : CalendarEvent → LLMOutcome) (ev : CalendarEvent) :
    ExtractedData :=
  (hybrid_extract_from_event confidence_threshold
    (rules_extract_from_event existing fuzzy (evToEventData ev))
    (fun _ => ai_extract_from_event parseJson (aiOutcome ev))).1

/-! ### `sheets_client.py`: `GoogleSheetsClient`

The worksheet is the list of data rows below the header.  `_get_existing_records`
walks `get_all_values()` building `dict[event_id] = row_number` for every row
with a truthy first cell; a later duplicate key overwrites an earlier one, so
a lookup returns the **last** matching row index (and misses the empty key,
which is never stored). -/

/-- The confidence cell of `_record_to_values`: `record.extracted_confidence
or ''` blanks both `None` and `0.0`; the decimal text of a non-zero float is
immaterial to every claim (only its determinism matters). -/
def fmtConfidenceCell (c : Option ℚ) : String :=
  match c with
  | none => ""
  | some q => if q = 0 then "" else toString q

/-- `GoogleSheetsClient._record_to_values`: the 14 managed columns. -/
def record_to_values (r : BookingRecord) : List String :=
  [r.event_id, r.title, r.company_name.getD "", r.person_names,
   fmtDateTime r.start_datetime, fmtDateTime r.end_datetime, r.timezone,
   r.attendees, r.location.getD "", r.source_calendar,
   fmtConfidenceCell r.extracted_confidence, r.status,
   fmtDateTime r.updated_at, r.run_id.getD ""]

/-- Index of the last row satisfying `p` (dictionary overwrite semantics). -/
def findLastIdx (p : List String → Bool) : List (List String) → Option Nat
  | [] => none
  | row :: rest =>
    match findLastIdx p rest with
    | some j => some (j + 1)
    | none => if p row then some 0 else none

/-- The reconciliation index built by `_get_existing_records`, queried for one
identity key: the last row whose first cell is the (truthy) key. -/
def sheetLookup (table : List (List String)) (event_id : String) : Option Nat :=
  if event_id.isEmpty then none
  else findLastIdx (fun row => decide (row.headD "" = event_id)) table

/-- `GoogleSheetsClient._upsert_single_record` against a prebuilt index
(`lookup`): overwrite the matched row's managed columns, else append. -/
def upsert_single_record (lookup : String → Option Nat)
    (table : List (List String)) (record : BookingRecord) :
    List (List String) :=
  match lookup record.event_id with
  | some i => table.set i (record_to_values record)
  | none => table ++ [record_to_values record]

/-- `GoogleSheetsClient.upsert_booking_records`: the index is computed once
from the table as it stands when the batch begins, then each record of the
batch is upserted in order. -/
def upsert_booking_records (table : List (List String))
    (records : List BookingRecord) : List (List String) :=
  records.foldl (upsert_single_record (sheetLookup table)) table

/-- Number of rows whose identity-key column holds `k`. -/
def countKey (table : List (List String)) (k : String) : Nat :=
  (table.filter (fun row => decide (row.headD "" = k))).length

/-! #### The reduced-column (`Bookings_Simple`) upsert -/

/-- Unescape one character after a backslash in a JSON string (the escapes
`json.loads` meets in this system's data). -/
def jsonUnescapeChar (c : Char) : Char :=
  if c = 'n' then '\n' else if c = 't' then '\t' else c

/-- Read a JSON string body up to its closing quote (the opening quote is
already consumed); returns the decoded characters and the remainder. -/
def pjStr (fuel : Nat) (l : List Char) (acc : List Char) :
    Option (List Char × List Char) :=
  match fuel, l with
  | 0, _ => none
  | _, [] => none
  | fuel + 1, c :: rest =>
    if c = '"' then some (acc.reverse, rest)
    else if c = '\\' then
      match rest with
      | e :: rest2 => pjStr fuel rest2 (jsonUnescapeChar e :: acc)
      | [] => none
    else pjStr fuel rest (c :: acc)

/-- Read the comma-separated items of a non-empty JSON string array, up to and
including the closing bracket. -/
def pjItems (fuel : Nat) (l : List Char) (acc : List String) :
    Option (List String × List Char) :=
  match fuel with
  | 0 => none
  | fuel + 1 =>
    match l.dropWhile pyIsSpace with
    | '"' :: rest =>
      match pjStr rest.length rest [] with
      | some (chars, rest2) =>
        match rest2.dropWhile pyIsSpace with
        | ',' :: rest3 => pjItems fuel rest3 (String.mk chars :: acc)
        | ']' :: rest3 => some ((String.mk chars :: acc).reverse, rest3)
        | _ => none
      | none => none
    | _ => none

/-- `json.loads` of a JSON array of strings (the shape `person_names` always
holds); `none` models the raised `JSONDecodeError`. -/
def parseJsonStrList (s : String) : Option (List String) :=
  match s.data.dropWhile pyIsSpace with
  | '[' :: rest =>
    match rest.dropWhile pyIsSpace with
    | ']' :: rest2 => if (rest2.dropWhile pyIsSpace).isEmpty then some [] else none
    | _ =>
      match pjItems rest.length rest [] with
      | some (items, rest2) =>
        if (rest2.dropWhile pyIsSpace).isEmpty then some items else none
      | none => none
  | _ => none

/-- The four cells `upsert_simple_record` writes. -/
def simple_row_values (record : BookingRecord) (names : List String) :
    List String :=
  [record.event_id, fmtDate record.start_datetime,
   record.company_name.getD "", joinSep ", " names]

/-- First row whose `event_id` column equals the key
(`len(row) > 0 and row[0] == record.event_id`). -/
def primaryRowIdx (rows : List (List String)) (event_id : String) : Option Nat :=
  rows.findIdx? (fun row => !row.isEmpty && row.headD "" == event_id)

/-- First row matching the secondary composite key
(`len(row) >= 4 and row[1] == date_str and row[3] == person_names_str`). -/
def compositeRowIdx (rows : List (List String))
    (date_str person_names_str : String) : Option Nat :=
  rows.findIdx? (fun row =>
    decide (4 ≤ row.length) && row.getD 1 "" == date_str &&
      row.getD 3 "" == person_names_str)

/-- The target-row search of `upsert_simple_record`: the `event_id` scan runs
first, and the date + person-names scan runs only when it found nothing. -/
def find_simple_row_target (rows : List (List String))
    (event_id date_str person_names_str : String) : Option Nat :=
  match primaryRowIdx rows event_id with
  | some i => some i
  | none => compositeRowIdx rows date_str person_names_str

/-- `GoogleSheetsClient.upsert_simple_record`: decode the serialized person
names (a decode failure raises, and the `except` handler returns with the
sheet untouched), find the target row, overwrite it, else append. -/
def upsert_simple_record (rows : List (List String)) (record : BookingRecord) :
    List (List String) :=
  match parseJsonStrList record.person_names with
  | none => rows
  | some names =>
    let date_str := fmtDate record.start_datetime
    let person_names_str := joinSep ", " names
    match find_simple_row_target rows record.event_id date_str person_names_str with
    | some i => rows.set i (simple_row_values record names)
    | none => rows ++ [simple_row_values record names]

/-! ### `sync_service.py`: `CalendarSyncService` -/

/-- The `BookingRecord(...)` construction in `_process_single_event`, after
the pydantic validators have run: the person-name and attendee lists are
serialized to JSON text and the start/end datetimes pass through
`ensure_timezone`. -/
def mk_booking_record (ev : CalendarEvent) (normalized : ExtractedData)
    (run_id : String) (now : Datetime) : BookingRecord :=
  { event_id := ev.event_id
    title := ev.title
    company_name := normalized.company_name
    person_names := jsonDumpsStrList normalized.person_names
    start_datetime := ensure_timezone ev.start
    end_datetime := ensure_timezone ev.end_
    timezone := ev.timezone
    attendees := jsonDumpsAttendees ev.attendees
    location := ev.location
    source_calendar := ev.source_calendar
    extracted_confidence := some normalized.confidence
    status := "active"
    updated_at := now
    run_id := some run_id }

/-- `CalendarSyncService._process_single_event`: extract, normalize, build the
record, validate it — and return the record whether or not the validation
succeeded (an invalid result is only logged as a warning; `None` is returned
only when an exception escapes, which none of these steps lets happen). -/
def process_single_event (extract : CalendarEvent → ExtractedData)
    (now : Datetime) (jsonParses : String → Bool) (run_id : String)
    (ev : CalendarEvent) : Option BookingRecord :=
  let extracted_data := extract ev
  let normalized_data := normalize_extracted_data extracted_data
  let booking_record := mk_booking_record ev normalized_data run_id now
  let _validation := validate_booking_record jsonParses now booking_record
  some booking_record

/-- Steps 3–4 of `sync_calendar_to_sheets`: process the filtered events into
records and upsert the batch into the sheet. -/
def sync_upsert_step (extract : CalendarEvent → ExtractedData) (now : Datetime)
    (jsonParses : String → Bool) (run_id : String)
    (events : List CalendarEvent) (table : List (List String)) :
    List (List String) :=
  upsert_booking_records table
    (events.filterMap (process_single_event extract now jsonParses run_id))

/-! ### Spec-side definition for the merged-confidence claim -/

/-- The Arbitrator's merged confidence as the spec words it (§4.4): `0.6 ×
heuristic confidence + 0.4 × fallback confidence`, plus 0.10 when the merged
result has both a company name and at least one person name, 0.05 when it has
exactly one of the two, clamped to `[0, 1]`.  Stated over the merged result's
fields so it can be compared with the implementation. -/
def specMergedConfidence (heuristic fallback : ExtractedData) : ℚ :=
  let merged := merge_and_validate_results heuristic fallback
  let bonus : ℚ :=
    if merged.company_name ≠ none ∧ merged.person_names ≠ [] then 1/10
    else if merged.company_name ≠ none ∨ merged.person_names ≠ [] then 1/20
    else 0
  min (max (heuristic.confidence * (6/10) + fallback.confidence * (4/10) + bonus) 0) 1

/-! ### A concrete synchronization scenario (an event whose start equals its
end, so the record fails the structural order invariant) -/

/-- A `【B】` event whose start and end instants coincide. -/
def c1Event : CalendarEvent :=
  { event_id := "evt1"
    title := "【B】123"
    start := { wall := 1000000, tz := none }
    end_ := { wall := 1000000, tz := none }
    timezone := "Asia/Tokyo"
    updated := { wall := 1000000, tz := none }
    source_calendar := "primary" }

/-- The pipeline's extractor with an empty known-company set and an
unconfigured LLM client (`noClient`). -/
def c1Extract : CalendarEvent → ExtractedData :=
  full_hybrid_extract defaultConfidenceThreshold [] (fun _ _ => none)
    (fun _ => none) (fun _ => .noClient)

/-- The naive `datetime.now()` of the run. -/
def c1Now : Datetime := { wall := 2000000, tz := none }

/-- `json.loads` succeeds on the only serialized lists this scenario builds,
the empty ones. -/
def c1JsonOk : String → Bool := fun s => s = "[]"

/-- The record `_process_single_event` builds for `c1Event`. -/
def c1Record : BookingRecord :=
  mk_booking_record c1Event (normalize_extracted_data (c1Extract c1Event))
    "run1" c1Now

/-! ## Theorems

Helper lemmas first, then one theorem per claim (with its witness or
counterexample where required). -/

theorem isEmpty_false_of_ne (s : String) (h : s ≠ "") : s.isEmpty = false := by
  simpa using fun hc => h ((String.isEmpty_iff s).mp hc)

theorem merge_company_truthy_or_none (rc ac : Option String) (q1 q2 : ℚ) :
    merge_company_names rc ac q1 q2 = none ∨
      truthyS (merge_company_names rc ac q1 q2) = true := by
  unfold merge_company_names
  split_ifs with h1 h2 h3 h4
  · exact Or.inl rfl
  · right; by_contra hac; exact h1 (by simp_all)
  · right; simpa using h2
  · right; simpa using h2
  · right; simpa using h3

/-- **C3.** For every event whose rule-based confidence reaches the
configurable threshold, `HybridExtractor.extract_from_event` returns the
rule-based result unchanged and the model-backed extractor is never invoked
(the boolean call-flag of the embedding stays `false`). -/
theorem c3_heuristic_trusted_short_circuit (confidence_threshold : ℚ)
    (rule_result : ExtractedData) (ai : Unit → ExtractedData)
    (h : confidence_threshold ≤ rule_result.confidence) :
    hybrid_extract_from_event confidence_threshold rule_result ai =
      (rule_result, false) := by
  unfold hybrid_extract_from_event
  rw [if_pos h]

/-- Witness for C3 at the default threshold 0.8 and a rule-based result of
confidence 0.9. -/
theorem c3_heuristic_trusted_short_circuit_witness :
    hybrid_extract_from_event defaultConfidenceThreshold
        { company_name := some "株式会社サンプル",
          person_names := ["田中太郎"], confidence := 9/10 }
        (fun _ => emptyExtraction) =
      ({ company_name := some "株式会社サンプル",
         person_names := ["田中太郎"], confidence := 9/10 }, false) :=
  c3_heuristic_trusted_short_circuit defaultConfidenceThreshold _ _ (by norm_num [defaultConfidenceThreshold])

/-- **C7.** The model-backed extractor never propagates a failure: an
unavailable/unconfigured client, a raised backend query, or a reply whose
isolated JSON text does not parse all yield the zero-confidence empty
candidate (no company name, no person names, confidence 0.0). -/
theorem c7_ai_extractor_degrades_gracefully
    (parseJson : String → Option LLMFields) (outcome : LLMOutcome)
    (h : outcome = .noClient ∨ outcome = .queryError ∨
      ∃ t, outcome = .reply t ∧ parseJson (extractJsonStr t) = none) :
    ai_extract_from_event parseJson outcome =
      { company_name := none, person_names := [], confidence := 0 } := by
  rcases h with h | h | ⟨t, ht, hp⟩
  · rw [h]; rfl
  · rw [h]; rfl
  · rw [ht]
    simp [ai_extract_from_event, parse_llm_response, hp, emptyExtraction]

/-- Witness for C7: a backend reply with no parseable JSON degrades to the
empty candidate. -/
theorem c7_ai_extractor_degrades_gracefully_witness :
    ai_extract_from_event (fun _ => none) (.reply "sorry, here is prose") =
      { company_name := none, person_names := [], confidence := 0 } :=
  c7_ai_extractor_degrades_gracefully (fun _ => none)
    (.reply "sorry, here is prose") (Or.inr (Or.inr ⟨_, rfl, rfl⟩))

/-- **C8.** The merged confidence computed by
`HybridExtractor._calculate_merged_confidence` equals the spec's formula:
`0.6·heuristic + 0.4·fallback`, plus 0.10 when the merged result carries both
a company name and person names, 0.05 when exactly one, clamped to `[0,1]`. -/
theorem c8_merged_confidence_formula (heuristic fallback : ExtractedData) :
    (merge_and_validate_results heuristic fallback).confidence =
      specMergedConfidence heuristic fallback := by
  have hm := merge_company_truthy_or_none heuristic.company_name
    fallback.company_name heuristic.confidence fallback.confidence
  rcases hm with h | h
  · by_cases hp : merge_person_names heuristic.person_names fallback.person_names
        heuristic.confidence fallback.confidence = [] <;>
      simp [merge_and_validate_results, specMergedConfidence,
        calculate_merged_confidence, h, hp, truthyS]
  · have hne : merge_company_names heuristic.company_name fallback.company_name
        heuristic.confidence fallback.confidence ≠ none := by
      intro hc; rw [hc] at h; simp [truthyS] at h
    by_cases hp : merge_person_names heuristic.person_names fallback.person_names
        heuristic.confidence fallback.confidence = [] <;>
      simp [merge_and_validate_results, specMergedConfidence,
        calculate_merged_confidence, h, hp, hne]

/-- **C9.** Company-name merging selects by confidence, symmetrically, with
ties favoring the heuristic side, and a name proposed by only one side is
taken. -/
theorem c9_company_merge_confidence_selection (rc ac : String) (q1 q2 : ℚ)
    (hrc : rc ≠ "") (hac : ac ≠ "") :
    (q2 < q1 → merge_company_names (some rc) (some ac) q1 q2 = some rc) ∧
    (q1 < q2 → merge_company_names (some rc) (some ac) q1 q2 = some ac) ∧
    (q1 = q2 → merge_company_names (some rc) (some ac) q1 q2 = some rc) ∧
    merge_company_names (some rc) none q1 q2 = some rc ∧
    merge_company_names none (some ac) q1 q2 = some ac := by
  have h1 := isEmpty_false_of_ne rc hrc
  have h2 := isEmpty_false_of_ne ac hac
  refine ⟨fun hlt => ?_, fun hlt => ?_, fun heq => ?_, ?_, ?_⟩ <;>
    simp [merge_company_names, truthyS, h1, h2]
  · exact fun h' => absurd h' (not_lt.mpr (le_of_lt hlt))
  · exact fun h' => absurd hlt (not_lt.mpr h')
  · exact fun h' => absurd (heq ▸ h') (lt_irrefl q2)

/-- Witness for C9 with two concrete names, in both confidence orders and at
a tie. -/
theorem c9_company_merge_confidence_selection_witness :
    (((1 : ℚ)/4 < 1/2 →
        merge_company_names (some "株式会社A") (some "B Inc.") (1/2) (1/4) = some "株式会社A") ∧
      ((1 : ℚ)/2 < 1/4 →
        merge_company_names (some "株式会社A") (some "B Inc.") (1/2) (1/4) = some "B Inc.") ∧
      ((1 : ℚ)/2 = 1/4 →
        merge_company_names (some "株式会社A") (some "B Inc.") (1/2) (1/4) = some "株式会社A") ∧
      merge_company_names (some "株式会社A") none (1/2) (1/4) = some "株式会社A" ∧
      merge_company_names none (some "B Inc.") (1/2) (1/4) = some "B Inc.") ∧
    ((1 : ℚ)/4 < 1/2 →
        merge_company_names (some "B Inc.") (some "株式会社A") (1/2) (1/4) = some "B Inc.") :=
  ⟨c9_company_merge_confidence_selection "株式会社A" "B Inc." (1/2) (1/4)
      (by decide) (by decide),
    (c9_company_merge_confidence_selection "B Inc." "株式会社A" (1/2) (1/4)
      (by decide) (by decide)).1⟩

/-- **C10.** Every booking record built by the pipeline carries
`Asia/Tokyo`-normalized start and end datetimes: a naive input is read as UTC
and converted, an aware input is converted from its own zone, so the stored
zone is always UTC+9 and the denoted instant is the input's instant (under
the naive-is-UTC reading). -/
theorem c10_booking_record_tokyo_timezone (ev : CalendarEvent)
    (normalized : ExtractedData) (run_id : String) (now : Datetime) :
    (mk_booking_record ev normalized run_id now).start_datetime.tz = some tokyoOffset ∧
    (mk_booking_record ev normalized run_id now).end_datetime.tz = some tokyoOffset ∧
    utcInstant (mk_booking_record ev normalized run_id now).start_datetime =
      some (instantAssumingUTC ev.start) ∧
    utcInstant (mk_booking_record ev normalized run_id now).end_datetime =
      some (instantAssumingUTC ev.end_) := by
  unfold mk_booking_record ensure_timezone utcInstant instantAssumingUTC
  refine ⟨?_, ?_, ?_, ?_⟩
  · cases h : ev.start.tz <;> simp [h]
  · cases h : ev.end_.tz <;> simp [h]
  · cases h : ev.start.tz <;> simp [h]
  · cases h : ev.end_.tz <;> simp [h]

/-- **C6.** In the reduced-column upsert, a row whose `event_id` column
matches is always the chosen update target — the full sheet is overwritten at
that row even if a date/person-names composite match exists elsewhere — and
the composite scan is consulted only when the `event_id` scan finds
nothing. -/
theorem c6_primary_key_precedence (rows : List (List String))
    (record : BookingRecord) (names : List String) (i : Nat)
    (hparse : parseJsonStrList record.person_names = some names)
    (hi : primaryRowIdx rows record.event_id = some i) :
    upsert_simple_record rows record = rows.set i (simple_row_values record names) ∧
    find_simple_row_target rows record.event_id (fmtDate record.start_datetime)
      (joinSep ", " names) = some i ∧
    (∀ rows', primaryRowIdx rows' record.event_id = none →
      find_simple_row_target rows' record.event_id (fmtDate record.start_datetime)
        (joinSep ", " names) =
      compositeRowIdx rows' (fmtDate record.start_datetime) (joinSep ", " names)) := by
  refine ⟨?_, ?_, ?_⟩
  · unfold upsert_simple_record
    rw [hparse]
    unfold find_simple_row_target
    rw [hi]
  · unfold find_simple_row_target
    rw [hi]
  · intro rows' h'
    unfold find_simple_row_target
    rw [h']

/-- Witness for C6: the composite key (same date, same person-names string)
matches row 0 while the identity key matches row 1; row 1 is the one
updated. -/
theorem c6_primary_key_precedence_witness :
    upsert_simple_record
        [["", "1970-01-01", "X", "田中様"], ["evt9", "2000-01-01", "Y", "old"]]
        { event_id := "evt9", title := "t", person_names := "[\"田中様\"]",
          start_datetime := { wall := 0, tz := some 32400 },
          end_datetime := { wall := 3600, tz := some 32400 },
          source_calendar := "p", updated_at := { wall := 0, tz := none } } =
      ([["", "1970-01-01", "X", "田中様"], ["evt9", "2000-01-01", "Y", "old"]].set 1
        (simple_row_values
          { event_id := "evt9", title := "t", person_names := "[\"田中様\"]",
            start_datetime := { wall := 0, tz := some 32400 },
            end_datetime := { wall := 3600, tz := some 32400 },
            source_calendar := "p", updated_at := { wall := 0, tz := none } }
          ["田中様"])) ∧
    find_simple_row_target
        [["", "1970-01-01", "X", "田中様"], ["evt9", "2000-01-01", "Y", "old"]]
        "evt9"
        (fmtDate { wall := 0, tz := some 32400 }) (joinSep ", " ["田中様"]) = some 1 ∧
    (∀ rows', primaryRowIdx rows' "evt9" = none →
      find_simple_row_target rows' "evt9"
        (fmtDate { wall := 0, tz := some 32400 }) (joinSep ", " ["田中様"]) =
      compositeRowIdx rows' (fmtDate { wall := 0, tz := some 32400 })
        (joinSep ", " ["田中様"])) :=
  c6_primary_key_precedence _ _ ["田中様"] 1 (by decide) (by decide)

/-! #### Lemmas about the reconciliation index (`findLastIdx`) -/

theorem findLastIdx_eq_none_iff (p : List String → Bool) (t : List (List String)) :
    findLastIdx p t = none ↔ ∀ row ∈ t, p row = false := by
  induction t with
  | nil => simp [findLastIdx]
  | cons row rest ih =>
    simp only [findLastIdx]
    cases h : findLastIdx p rest with
    | some j =>
      simp only [reduceCtorEq, false_iff]
      intro hall
      have : findLastIdx p rest = none :=
        ih.mpr (fun r hr => hall r (List.mem_cons_of_mem _ hr))
      simp [this] at h
    | none =>
      have hall := ih.mp h
      constructor
      · intro hif r hr
        rcases List.mem_cons.mp hr with rfl | hr'
        · by_contra hpr
          simp [Bool.of_not_eq_false hpr] at hif
        · exact hall r hr'
      · intro hall2
        simp [hall2 row (List.mem_cons_self row rest)]

theorem findLastIdx_some_spec (p : List String → Bool) (t : List (List String))
    (i : Nat) (h : findLastIdx p t = some i) :
    i < t.length ∧ p (t.getD i []) = true ∧
      ∀ j, i < j → j < t.length → p (t.getD j []) = false := by
  induction t generalizing i with
  | nil => simp [findLastIdx] at h
  | cons row rest ih =>
    simp only [findLastIdx] at h
    cases hr : findLastIdx p rest with
    | some j =>
      rw [hr] at h
      obtain rfl : j + 1 = i := by simpa using h
      obtain ⟨hlen, hp, hafter⟩ := ih j hr
      refine ⟨by simpa using hlen, by simpa using hp, ?_⟩
      intro k hk hklen
      cases k with
      | zero => omega
      | succ k' =>
        have : j < k' := by omega
        simpa using hafter k' this (by simpa using hklen)
    | none =>
      rw [hr] at h
      have hall := (findLastIdx_eq_none_iff p rest).mp hr
      by_cases hpr : p row = true
      · rw [if_pos hpr] at h
        obtain rfl : (0 : Nat) = i := by simpa using h
        refine ⟨by simp, by simpa using hpr, ?_⟩
        intro k hk hklen
        cases k with
        | zero => omega
        | succ k' =>
          have hmem : rest.getD k' [] ∈ rest := by
            have hlt : k' < rest.length := by simpa using hklen
            rw [List.getD_eq_getElem rest [] hlt]
            exact List.getElem_mem hlt
          simpa using hall _ hmem
      · rw [if_neg hpr] at h
        simp at h

theorem findLastIdx_eq_some_of (p : List String → Bool) (t : List (List String))
    (i : Nat) (hi : i < t.length) (hp : p (t.getD i []) = true)
    (hafter : ∀ j, i < j → j < t.length → p (t.getD j []) = false) :
    findLastIdx p t = some i := by
  induction t generalizing i with
  | nil => simp at hi
  | cons row rest ih =>
    cases i with
    | zero =>
      simp only [findLastIdx]
      cases hr : findLastIdx p rest with
      | some j =>
        obtain ⟨hlen, hpj, _⟩ := findLastIdx_some_spec p rest j hr
        have := hafter (j + 1) (by omega) (by simpa using hlen)
        simp only [List.getD_cons_succ] at this
        rw [this] at hpj
        exact absurd hpj (by simp)
      | none =>
        simp only [List.getD_cons_zero] at hp
        rw [if_pos hp]
    | succ k =>
      have hk : k < rest.length := by simpa using hi
      have hpk : p (rest.getD k []) = true := by simpa using hp
      have hafterk : ∀ j, k < j → j < rest.length → p (rest.getD j []) = false := by
        intro j hj hjlen
        simpa using hafter (j + 1) (by omega) (by simpa using hjlen)
      simp only [findLastIdx, ih k hk hpk hafterk]

theorem findLastIdx_append_singleton (p : List String → Bool)
    (t : List (List String)) (v : List String) :
    findLastIdx p (t ++ [v]) =
      if p v = true then some t.length else findLastIdx p t := by
  induction t with
  | nil =>
    simp only [List.nil_append, findLastIdx]
    by_cases hv : p v = true <;> simp [hv]
  | cons row rest ih =>
    simp only [List.cons_append, findLastIdx, List.append_eq]
    rw [ih]
    by_cases hv : p v = true <;> simp [hv]

theorem set_append_singleton (t : List (List String)) (v : List String) :
    (t ++ [v]).set t.length v = t ++ [v] := by
  induction t with
  | nil => rfl
  | cons row rest ih => simp [List.set, ih]

theorem filter_set_same (p : List String → Bool) (t : List (List String))
    (i : Nat) (v : List String) (hi : i < t.length)
    (hpt : p (t.getD i []) = true) (hpv : p v = true) :
    ((t.set i v).filter p).length = (t.filter p).length := by
  induction t generalizing i with
  | nil => simp at hi
  | cons row rest ih =>
    cases i with
    | zero =>
      simp only [List.getD_cons_zero] at hpt
      simp [List.set, List.filter, hpt, hpv]
    | succ k =>
      have hk : k < rest.length := by simpa using hi
      have hpk : p (rest.getD k []) = true := by simpa using hpt
      simp only [List.set, List.filter]
      cases hrow : p row <;> simp [ih k hk hpk]

/-- **C2.** Reconciliation is idempotent: upserting a record (non-degenerate
identity key) into a table that holds at most one row for that key leaves
exactly one row for the key, and upserting the same record again returns the
table unchanged — the second application is a content-wise no-op. -/
theorem c2_upsert_idempotent (table : List (List String)) (r : BookingRecord)
    (hid : r.event_id ≠ "") (hcount : countKey table r.event_id ≤ 1) :
    countKey (upsert_booking_records table [r]) r.event_id = 1 ∧
    upsert_booking_records (upsert_booking_records table [r]) [r] =
      upsert_booking_records table [r] := by
  have hfold : ∀ t : List (List String), upsert_booking_records t [r] =
      upsert_single_record (sheetLookup t) t r := fun t => rfl
  have hpv : (fun row => decide (row.headD "" = r.event_id)) (record_to_values r) = true := by
    simp [record_to_values]
  have hlook : ∀ t : List (List String), sheetLookup t r.event_id =
      findLastIdx (fun row => decide (row.headD "" = r.event_id)) t := by
    intro t
    simp [sheetLookup, isEmpty_false_of_ne r.event_id hid]
  rw [hfold, hfold]
  unfold upsert_single_record
  rw [hlook]
  cases hl : findLastIdx (fun row => decide (row.headD "" = r.event_id)) table with
  | none =>
    have hfil : table.filter (fun row => decide (row.headD "" = r.event_id)) = [] := by
      rw [List.filter_eq_nil_iff]
      intro a ha
      simpa using (findLastIdx_eq_none_iff _ table).mp hl a ha
    refine ⟨?_, ?_⟩
    · unfold countKey
      rw [List.filter_append, hfil]
      simp [record_to_values]
    · rw [hlook, findLastIdx_append_singleton, if_pos hpv]
      exact set_append_singleton table (record_to_values r)
  | some i =>
    obtain ⟨hlen, hpi, hafter⟩ := findLastIdx_some_spec _ table i hl
    have hmem : table.getD i [] ∈
        table.filter (fun row => decide (row.headD "" = r.event_id)) := by
      refine List.mem_filter.mpr ⟨?_, hpi⟩
      rw [List.getD_eq_getElem table [] hlen]
      exact List.getElem_mem hlen
    have hcnt1 : countKey table r.event_id = 1 := by
      have h1 := List.length_pos_of_mem hmem
      unfold countKey at hcount ⊢
      omega
    refine ⟨?_, ?_⟩
    · unfold countKey
      rw [filter_set_same _ table i _ hlen hpi hpv]
      exact hcnt1
    · rw [hlook]
      have hset : findLastIdx (fun row => decide (row.headD "" = r.event_id))
          (table.set i (record_to_values r)) = some i := by
        apply findLastIdx_eq_some_of
        · simpa using hlen
        · rw [List.getD_eq_getElem _ [] (by simpa using hlen)]
          simpa [List.getElem_set_self] using hpv
        · intro j hj hjlen
          have hjlen' : j < table.length := by simpa using hjlen
          have hget : (table.set i (record_to_values r)).getD j [] = table.getD j [] := by
            rw [List.getD_eq_getElem _ [] hjlen, List.getD_eq_getElem table [] hjlen',
              List.getElem_set_ne (by omega)]
          rw [hget]
          exact hafter j hj hjlen'
      rw [hset]
      exact List.set_set _ _ table i

/-- Witness for C2: a fresh record upserted twice into an initially empty
sheet converges to one row, the second pass a no-op. -/
theorem c2_upsert_idempotent_witness :
    countKey
        (upsert_booking_records []
          [{ event_id := "e1", title := "予約",
             start_datetime := { wall := 32400, tz := some 32400 },
             end_datetime := { wall := 36000, tz := some 32400 },
             source_calendar := "primary",
             updated_at := { wall := 0, tz := none } }])
        "e1" = 1 ∧
    upsert_booking_records
        (upsert_booking_records []
          [{ event_id := "e1", title := "予約",
             start_datetime := { wall := 32400, tz := some 32400 },
             end_datetime := { wall := 36000, tz := some 32400 },
             source_calendar := "primary",
             updated_at := { wall := 0, tz := none } }])
        [{ event_id := "e1", title := "予約",
           start_datetime := { wall := 32400, tz := some 32400 },
           end_datetime := { wall := 36000, tz := some 32400 },
           source_calendar := "primary",
           updated_at := { wall := 0, tz := none } }] =
      upsert_booking_records []
        [{ event_id := "e1", title := "予約",
           start_datetime := { wall := 32400, tz := some 32400 },
           end_datetime := { wall := 36000, tz := some 32400 },
           source_calendar := "primary",
           updated_at := { wall := 0, tz := none } }] :=
  c2_upsert_idempotent [] _ (by decide) (by decide)

theorem ensure_timezone_tz (v : Datetime) :
    (ensure_timezone v).tz = some tokyoOffset := by
  cases h : v.tz <;> simp [ensure_timezone, h]

theorem record_mem_upsert (t : List (List String)) (r : BookingRecord) :
    record_to_values r ∈ upsert_booking_records t [r] := by
  have hfold : upsert_booking_records t [r] =
      upsert_single_record (sheetLookup t) t r := rfl
  rw [hfold]
  unfold upsert_single_record
  cases hl : sheetLookup t r.event_id with
  | none => simp
  | some i =>
    have hi : i < t.length := by
      unfold sheetLookup at hl
      split at hl
      · exact absurd hl (by simp)
      · exact (findLastIdx_some_spec _ t i hl).1
    exact List.mem_set t i hi (record_to_values r)

/-- **C1 (amended).** A booking record failing structural validation **is**
persisted: `_process_single_event` computes the validation result, logs it,
and returns the record regardless, so the record's row reaches the sheet and
no validation error enters the `SyncResult`.  (Indeed, with the naive
`datetime.now()` of the source, the validator's past-start check compares a
naive and an `Asia/Tokyo`-aware datetime and every pipeline-built record is
reported invalid.)  The overall pass does continue. -/
theorem c1_invalid_records_still_persisted
    (extract : CalendarEvent → ExtractedData) (now : Datetime)
    (jsonParses : String → Bool) (run_id : String) (ev : CalendarEvent)
    (table : List (List String)) (hnow : now.tz = none) :
    process_single_event extract now jsonParses run_id ev =
      some (mk_booking_record ev (normalize_extracted_data (extract ev)) run_id now) ∧
    (validate_booking_record jsonParses now
      (mk_booking_record ev (normalize_extracted_data (extract ev)) run_id now)).is_valid
      = false ∧
    record_to_values
        (mk_booking_record ev (normalize_extracted_data (extract ev)) run_id now) ∈
      sync_upsert_step extract now jsonParses run_id [ev] table := by
  refine ⟨rfl, ?_, ?_⟩
  · unfold validate_booking_record
    cases hge : dtGe
        (mk_booking_record ev (normalize_extracted_data (extract ev)) run_id now).start_datetime
        (mk_booking_record ev (normalize_extracted_data (extract ev)) run_id now).end_datetime with
    | none => simp
    | some ge =>
      have hlt : dtLt
          (mk_booking_record ev (normalize_extracted_data (extract ev)) run_id now).start_datetime
          now = none := by
        unfold dtLt
        rw [show (mk_booking_record ev (normalize_extracted_data (extract ev)) run_id
            now).start_datetime.tz = some tokyoOffset from ensure_timezone_tz ev.start,
          hnow]
      simp [hlt]
  · unfold sync_upsert_step
    have hfm : ([ev].filterMap (process_single_event extract now jsonParses run_id)) =
        [mk_booking_record ev (normalize_extracted_data (extract ev)) run_id now] := rfl
    rw [hfm]
    exact record_mem_upsert table _

/-- Witness for C1's amended statement at the concrete scenario. -/
theorem c1_invalid_records_still_persisted_witness :
    process_single_event c1Extract c1Now c1JsonOk "run1" c1Event =
      some (mk_booking_record c1Event
        (normalize_extracted_data (c1Extract c1Event)) "run1" c1Now) ∧
    (validate_booking_record c1JsonOk c1Now
      (mk_booking_record c1Event
        (normalize_extracted_data (c1Extract c1Event)) "run1" c1Now)).is_valid
      = false ∧
    record_to_values
        (mk_booking_record c1Event
          (normalize_extracted_data (c1Extract c1Event)) "run1" c1Now) ∈
      sync_upsert_step c1Extract c1Now c1JsonOk "run1" [c1Event] [] :=
  c1_invalid_records_still_persisted c1Extract c1Now c1JsonOk "run1" c1Event [] rfl

/-- **C1 counterexample.** The concrete event `c1Event` has `start = end`, so
its record violates the structural order invariant and fails validation
(the order error is among the reported errors) — yet `_process_single_event`
returns the record and the synchronization step persists it as a sheet row,
contradicting the claim that a record failing structural validation is not
persisted. -/
theorem c1_validation_failure_counterexample :
    (validate_booking_record c1JsonOk c1Now c1Record).is_valid = false ∧
    "開始時刻は終了時刻より前である必要があります" ∈
      (validate_booking_record c1JsonOk c1Now c1Record).errors ∧
    process_single_event c1Extract c1Now c1JsonOk "run1" c1Event = some c1Record ∧
    sync_upsert_step c1Extract c1Now c1JsonOk "run1" [c1Event] [] =
      [record_to_values c1Record] := by
  refine ⟨by decide, by decide, rfl, rfl⟩

/-- **C5 (amended).** For every event with no attendees whose collected text
triggers none of the company detectors (title-head shapes, suffix scan,
domain map, known-company match), matches none of the person-name patterns,
and is at most 50 characters long, the Pattern Extractor returns no company,
no persons, and confidence exactly 0.0. -/
theorem c5_empty_extraction_amended (existing : List String)
    (fuzzy : String → List String → Option String) (ev : EventData)
    (hatt : ev.attendees = [])
    (htitle : extract_company_from_title (collect_text_data ev) = none)
    (hsuffix : find_companies_by_suffix (collect_text_data ev) = [])
    (hdomain : extract_company_from_domain (collect_text_data ev) = none)
    (hexist : find_existing_company_match existing fuzzy (collect_text_data ev) = none)
    (hnames : extract_names_from_text (collect_text_data ev) = [])
    (hlen : (collect_text_data ev).length ≤ 50) :
    rules_extract_from_event existing fuzzy ev =
      { company_name := none, person_names := [], confidence := 0 } := by
  have hcomp : extract_company_name existing fuzzy (collect_text_data ev) = none := by
    unfold extract_company_name
    by_cases he : (collect_text_data ev).isEmpty
    · simp [he]
    · simp [he, htitle, hsuffix, hdomain, hexist]
  have hpers : extract_person_names ev (collect_text_data ev) = [] := by
    unfold extract_person_names
    rw [hatt, hnames]
    rfl
  have hconf : calculate_confidence existing none [] (collect_text_data ev) = 0 := by
    unfold calculate_confidence
    norm_num [truthyS, Nat.not_lt.mpr hlen]
  simp only [rules_extract_from_event]
  rw [hcomp, hpers, hconf]

/-- Witness for C5's amended statement: a one-hiragana title with no
attendees. -/
theorem c5_empty_extraction_amended_witness :
    rules_extract_from_event [] (fun _ _ => none) { title := "あ" } =
      { company_name := none, person_names := [], confidence := 0 } :=
  c5_empty_extraction_amended [] (fun _ _ => none) { title := "あ" }
    rfl (by decide) (by decide) (by decide) (by decide) (by decide) (by decide)

/-- **C5 counterexample.**  Two attendee-free events whose collected text has
no business-entity indicators (all company detectors come back empty) where
the claimed conclusion fails: a lone honorific name `田中様` still yields a
person name and confidence 0.4, and a 51-character indicator-free text (with
no person-name match either) yields confidence 0.1 from the text-length
bonus — in neither case is the result `(no company, no persons, 0.0)`. -/
theorem c5_no_indicator_counterexample :
    (collect_text_data { title := "田中様" } = "田中様" ∧
      extract_company_from_title "田中様" = none ∧
      find_companies_by_suffix "田中様" = [] ∧
      extract_company_from_domain "田中様" = none ∧
      (rules_extract_from_event [] (fun _ _ => none)
        { title := "田中様" }).company_name = none ∧
      (rules_extract_from_event [] (fun _ _ => none)
        { title := "田中様" }).person_names = ["田中様"] ∧
      (rules_extract_from_event [] (fun _ _ => none)
        { title := "田中様" }).confidence = 2/5) ∧
    (collect_text_data { title := "111111111111111111111111111111111111111111111111111" }
        = "111111111111111111111111111111111111111111111111111" ∧
      extract_company_from_title
        "111111111111111111111111111111111111111111111111111" = none ∧
      find_companies_by_suffix
        "111111111111111111111111111111111111111111111111111" = [] ∧
      extract_company_from_domain
        "111111111111111111111111111111111111111111111111111" = none ∧
      extract_names_from_text
        "111111111111111111111111111111111111111111111111111" = [] ∧
      (rules_extract_from_event [] (fun _ _ => none)
        { title := "111111111111111111111111111111111111111111111111111" }).company_name
        = none ∧
      (rules_extract_from_event [] (fun _ _ => none)
        { title := "111111111111111111111111111111111111111111111111111" }).person_names
        = [] ∧
      (rules_extract_from_event [] (fun _ _ => none)
        { title := "111111111111111111111111111111111111111111111111111" }).confidence
        = 1/10) := by
  have h1 : collect_text_data ({ title := "田中様" } : EventData) = "田中様" := by decide
  have h2 : extract_company_name [] (fun _ _ => none) "田中様" = none := by decide
  have h3 : extract_person_names ({ title := "田中様" } : EventData) "田中様" =
      ["田中様"] := by decide
  have h4 : rules_extract_from_event [] (fun _ _ => none) { title := "田中様" } =
      { company_name := none, person_names := ["田中様"],
        confidence := calculate_confidence [] none ["田中様"] "田中様" } := by
    simp only [rules_extract_from_event]
    rw [h1, h2, h3]
  have h5 : calculate_confidence [] none ["田中様"] "田中様" = 2/5 := by
    unfold calculate_confidence
    norm_num [truthyS, show (50 < ("田中様" : String).length) = False from by decide]
  have g1 : collect_text_data
      ({ title := "111111111111111111111111111111111111111111111111111" } : EventData) =
      "111111111111111111111111111111111111111111111111111" := by decide
  have g2 : extract_company_name [] (fun _ _ => none)
      "111111111111111111111111111111111111111111111111111" = none := by decide
  have g3 : extract_person_names
      ({ title := "111111111111111111111111111111111111111111111111111" } : EventData)
      "111111111111111111111111111111111111111111111111111" = [] := by decide
  have g4 : rules_extract_from_event [] (fun _ _ => none)
      { title := "111111111111111111111111111111111111111111111111111" } =
      { company_name := none, person_names := [],
        confidence := calculate_confidence [] none []
          "111111111111111111111111111111111111111111111111111" } := by
    simp only [rules_extract_from_event]
    rw [g1, g2, g3]
  have g5 : calculate_confidence [] none []
      "111111111111111111111111111111111111111111111111111" = 1/10 := by
    unfold calculate_confidence
    norm_num [truthyS,
      show (50 < ("111111111111111111111111111111111111111111111111111" : String).length)
        = True from by decide]
  refine ⟨⟨h1, by decide, by decide, by decide, ?_, ?_, ?_⟩,
    ⟨g1, by decide, by decide, by decide, by decide, ?_, ?_, ?_⟩⟩
  · rw [h4]
  · rw [h4]
  · rw [h4]; exact h5
  · rw [g4]
  · rw [g4]
  · rw [g4]; exact g5

/-! #### Lemmas for canonicalization idempotence (C4) -/

theorem dropWhile_head_false (p : Char → Bool) (l : List Char) (c : Char)
    (rest : List Char) (h : l.dropWhile p = c :: rest) : p c = false := by
  induction l with
  | nil => simp at h
  | cons x xs ih =>
    rw [List.dropWhile_cons] at h
    by_cases hx : p x = true
    · exact ih (by simpa [hx] using h)
    · rw [if_neg hx] at h
      obtain rfl : x = c := (List.cons.injEq ..).mp h |>.1
      simpa using hx

theorem dropWhile_eq_self_of (p : Char → Bool) (l : List Char)
    (h : ∀ c rest, l = c :: rest → p c = false) : l.dropWhile p = l := by
  cases l with
  | nil => rfl
  | cons c rest =>
    rw [List.dropWhile_cons, if_neg (by simp [h c rest rfl])]

theorem dropWhile_decomp (p : Char → Bool) (l : List Char) :
    ∃ pre, l = pre ++ l.dropWhile p := by
  induction l with
  | nil => exact ⟨[], rfl⟩
  | cons x xs ih =>
    rw [List.dropWhile_cons]
    by_cases hx : p x = true
    · obtain ⟨pre, hpre⟩ := ih
      exact ⟨x :: pre, by simp [hx, ← hpre]⟩
    · exact ⟨[], by simp [hx]⟩

theorem pyStrip_noLead (l : List Char) (c : Char) (rest : List Char)
    (h : pyStrip l = c :: rest) : pyIsSpace c = false := by
  unfold pyStrip dropTrail at h
  obtain ⟨pre, hpre⟩ := dropWhile_decomp pyIsSpace (l.dropWhile pyIsSpace).reverse
  have hm : l.dropWhile pyIsSpace =
      ((l.dropWhile pyIsSpace).reverse.dropWhile pyIsSpace).reverse ++ pre.reverse :=
    calc l.dropWhile pyIsSpace
        = ((l.dropWhile pyIsSpace).reverse).reverse := by rw [List.reverse_reverse]
      _ = (pre ++ (l.dropWhile pyIsSpace).reverse.dropWhile pyIsSpace).reverse := by
          rw [← hpre]
      _ = ((l.dropWhile pyIsSpace).reverse.dropWhile pyIsSpace).reverse ++ pre.reverse := by
          simp
  rw [h] at hm
  rw [List.cons_append] at hm
  exact dropWhile_head_false pyIsSpace l c (rest ++ pre.reverse) hm

theorem pyStrip_noTrail (l : List Char) (c : Char) (rest : List Char)
    (h : (pyStrip l).reverse = c :: rest) : pyIsSpace c = false := by
  unfold pyStrip dropTrail at h
  rw [List.reverse_reverse] at h
  exact dropWhile_head_false pyIsSpace (l.dropWhile pyIsSpace).reverse c rest h

theorem pyStrip_idem (l : List Char) : pyStrip (pyStrip l) = pyStrip l := by
  have h1 : (pyStrip l).dropWhile pyIsSpace = pyStrip l :=
    dropWhile_eq_self_of pyIsSpace (pyStrip l)
      (fun c rest h => pyStrip_noLead l c rest h)
  have h2 : (pyStrip l).reverse.dropWhile pyIsSpace = (pyStrip l).reverse :=
    dropWhile_eq_self_of pyIsSpace (pyStrip l).reverse
      (fun c rest h => pyStrip_noTrail l c rest h)
  show dropTrail pyIsSpace ((pyStrip l).dropWhile pyIsSpace) = pyStrip l
  rw [h1]
  unfold dropTrail
  rw [h2, List.reverse_reverse]

theorem dropWhile_map (p : Char → Bool) (g : Char → Char)
    (hg : ∀ c, p (g c) = p c) (l : List Char) :
    (l.map g).dropWhile p = (l.dropWhile p).map g := by
  induction l with
  | nil => rfl
  | cons x xs ih =>
    simp only [List.map_cons, List.dropWhile_cons, hg x]
    by_cases hx : p x = true <;> simp [hx, ih]

theorem pyStrip_map (g : Char → Char) (hg : ∀ c, pyIsSpace (g c) = pyIsSpace c)
    (l : List Char) : pyStrip (l.map g) = (pyStrip l).map g := by
  unfold pyStrip dropTrail
  rw [dropWhile_map pyIsSpace g hg l,
    show (List.map g (l.dropWhile pyIsSpace)).reverse =
      List.map g (l.dropWhile pyIsSpace).reverse by simp,
    dropWhile_map pyIsSpace g hg]
  simp

theorem nameRuleChar_idem (c : Char) : nameRuleChar (nameRuleChar c) = nameRuleChar c := by
  unfold nameRuleChar
  by_cases h1 : c = '　'
  · simp [h1]
  · by_cases h2 : c = '（'
    · simp [h1, h2]
    · by_cases h3 : c = '）'
      · simp [h1, h2, h3]
      · by_cases h4 : c = '［'
        · simp [h1, h2, h3, h4]
        · by_cases h5 : c = '］' <;> simp [h1, h2, h3, h4, h5]

theorem nameRuleChar_ws (c : Char) : pyIsSpace (nameRuleChar c) = pyIsSpace c := by
  unfold nameRuleChar
  by_cases h1 : c = '　'
  · simp [h1]; decide
  · by_cases h2 : c = '（'
    · simp [h1, h2]; decide
    · by_cases h3 : c = '）'
      · simp [h1, h2, h3]; decide
      · by_cases h4 : c = '［'
        · simp [h1, h2, h3, h4]; decide
        · by_cases h5 : c = '］' <;> simp [h1, h2, h3, h4, h5]
          decide

theorem normalizeOneName_fixpoint (l : List Char) :
    normalizeOneName (normalizeOneName l) = normalizeOneName l := by
  unfold normalizeOneName applyNameRules
  have hstrip : pyStrip (pyStrip ((pyStrip l).map nameRuleChar)) =
      pyStrip ((pyStrip l).map nameRuleChar) := pyStrip_idem _
  rw [hstrip]
  have hmap : (pyStrip ((pyStrip l).map nameRuleChar)).map nameRuleChar =
      pyStrip ((pyStrip l).map nameRuleChar) := by
    rw [← pyStrip_map nameRuleChar nameRuleChar_ws, List.map_map]
    have : (nameRuleChar ∘ nameRuleChar) = nameRuleChar := funext nameRuleChar_idem
    rw [this]
  rw [hmap, hstrip]

theorem mk_isEmpty (l : List Char) : (String.mk l).isEmpty = l.isEmpty := by
  cases l with
  | nil => rfl
  | cons c rest =>
    simp [String.isEmpty]
    intro h
    have h1 := c.utf8Size_pos
    have h2 : String.utf8Len rest + c.utf8Size = 0 := by
      have := congrArg String.Pos.byteIdx h
      simpa using this
    omega

theorem filterMap_fix (f : String → Option String) (m : List String)
    (h : ∀ z ∈ m, f z = some z) : m.filterMap f = m := by
  induction m with
  | nil => rfl
  | cons x xs ih =>
    rw [List.filterMap_cons, h x (List.mem_cons_self x xs),
      ih (fun z hz => h z (List.mem_cons_of_mem x hz))]

theorem normalize_person_names_mem (ns : List String) (z : String)
    (hz : z ∈ normalize_person_names ns) :
    (fun name =>
      if name.isEmpty then none
      else
        let normalized := normalizeOneName name.data
        if !normalized.isEmpty && normalizerIsValidPersonName normalized then
          some (String.mk normalized)
        else none) z = some z := by
  unfold normalize_person_names at hz
  obtain ⟨name, hmem, hstep⟩ := List.mem_filterMap.mp hz
  dsimp only at hstep ⊢
  by_cases h1 : name.isEmpty = true
  · simp [h1] at hstep
  · rw [if_neg h1] at hstep
    by_cases h2 : (!(normalizeOneName name.data).isEmpty &&
        normalizerIsValidPersonName (normalizeOneName name.data)) = true
    · rw [if_pos h2] at hstep
      obtain rfl : z = String.mk (normalizeOneName name.data) :=
        (Option.some.inj hstep).symm
      have hye : (normalizeOneName name.data).isEmpty = false := by
        have := h2
        simp only [Bool.and_eq_true, Bool.not_eq_true'] at this
        exact this.1
      rw [if_neg (by rw [mk_isEmpty]; simp [hye])]
      have hdata : (String.mk (normalizeOneName name.data)).data =
          normalizeOneName name.data := rfl
      rw [hdata, normalizeOneName_fixpoint, if_pos h2]
    · rw [if_neg h2] at hstep
      simp at hstep

theorem normalize_person_names_idem (ns : List String) :
    normalize_person_names (normalize_person_names ns) =
      normalize_person_names ns :=
  filterMap_fix _ (normalize_person_names ns) (normalize_person_names_mem ns)

theorem replaceAllAux_no_occur (pat rep : List Char) (fuel : Nat) (s : List Char)
    (h : occursIn pat s = false) : replaceAllAux fuel pat rep s = s := by
  induction fuel generalizing s with
  | zero => cases s <;> rfl
  | succ fuel ih =>
    cases s with
    | nil => rfl
    | cons c rest =>
      unfold occursIn at h
      simp only [Bool.or_eq_false_iff] at h
      unfold replaceAllAux
      rw [if_neg (fun hc => by simp [h.1] at hc)]
      rw [ih rest h.2]

theorem pyReplace_no_occur (s pat rep : String)
    (h : occursIn pat.data s.data = false) : pyReplace s pat rep = s := by
  unfold pyReplace
  rw [replaceAllAux_no_occur pat.data rep.data s.data.length s.data h]

theorem foldl_pyReplace_no_occur (y : String) (prs : List (String × String))
    (h : ∀ pr ∈ prs, occursIn pr.1.data y.data = false) :
    prs.foldl (fun acc pr => pyReplace acc pr.1 pr.2) y = y := by
  induction prs with
  | nil => rfl
  | cons pr rest ih =>
    rw [List.foldl_cons, pyReplace_no_occur y pr.1 pr.2 (h pr (List.mem_cons_self pr rest)),
      ih (fun q hq => h q (List.mem_cons_of_mem pr hq))]

theorem pyStripS_idem (s : String) : pyStripS (pyStripS s) = pyStripS s := by
  unfold pyStripS
  rw [show (String.mk (pyStrip s.data)).data = pyStrip s.data from rfl, pyStrip_idem]

theorem normalize_company_fixpoint (x : Option String) (y : String)
    (h : normalize_company_name x = some y)
    (hno : ∀ pr ∈ company_name_variations, occursIn pr.1.data y.data = false) :
    normalize_company_name (some y) = some y := by
  have key : (∃ w, y = pyStripS w) ∧ y.isEmpty = false := by
    unfold normalize_company_name at h
    cases x with
    | none => simp at h
    | some s =>
      have h' : (if s.isEmpty = true then none
          else if (pyStripS (List.foldl (fun acc pr => pyReplace acc pr.1 pr.2)
              (pyStripS s) company_name_variations)).isEmpty = true then none
            else some (pyStripS (List.foldl (fun acc pr => pyReplace acc pr.1 pr.2)
              (pyStripS s) company_name_variations))) = some y := h
      by_cases h1 : s.isEmpty = true
      · simp [h1] at h'
      · rw [if_neg h1] at h'
        by_cases h2 : (pyStripS (List.foldl (fun acc pr => pyReplace acc pr.1 pr.2)
            (pyStripS s) company_name_variations)).isEmpty = true
        · simp [h2] at h'
        · rw [if_neg h2] at h'
          obtain rfl : y = _ := (Option.some.inj h').symm
          exact ⟨⟨_, rfl⟩, by simpa using h2⟩
  obtain ⟨⟨w, hw⟩, hemp⟩ := key
  have heq : pyStripS y = y := by rw [hw]; exact pyStripS_idem w
  show (if y.isEmpty = true then none
        else
          let normalized := pyStripS y
          let normalized := List.foldl (fun acc pr => pyReplace acc pr.1 pr.2)
            normalized company_name_variations
          let normalized := pyStripS normalized
          if normalized.isEmpty = true then none else some normalized) = some y
  rw [if_neg (by simp [hemp])]
  show (if (pyStripS (List.foldl (fun acc pr => pyReplace acc pr.1 pr.2)
      (pyStripS y) company_name_variations)).isEmpty = true then none
    else some (pyStripS (List.foldl (fun acc pr => pyReplace acc pr.1 pr.2)
      (pyStripS y) company_name_variations))) = some y
  rw [heq, foldl_pyReplace_no_occur y company_name_variations hno, heq,
    if_neg (by simp [hemp])]

/-- **C4 counterexample.**  Company-name canonicalization is not idempotent:
`'ABC Inc'` normalizes to `'ABC Inc.'`, but normalizing the already-normalized
`'ABC Inc.'` yields `'ABC Inc..'` (the `'Inc' -> 'Inc.'` replacement applies
to its own output), so `normalize(normalize(x)) ≠ normalize(x)` at
`x = 'ABC Inc'`. -/
theorem c4_normalize_idempotent_counterexample :
    normalize_company_name (some "ABC Inc") = some "ABC Inc." ∧
    normalize_company_name (some "ABC Inc.") = some "ABC Inc.." ∧
    normalize_company_name (some "ABC Inc.") ≠ some "ABC Inc." := by
  refine ⟨by decide, by decide, by decide⟩

/-- **C4 (amended).**  Person-name canonicalization is idempotent, and
company-name canonicalization is idempotent exactly on outputs containing no
occurrence of a legal-abbreviation key (`'Inc'`, `'Ltd'`, `'Corp'`, `'Co'`,
or an enclosed-CJK sign): every such normalized name is a fixed point of the
normalizer. -/
theorem c4_normalize_idempotent_amended (person_names : List String)
    (x : Option String) (y : String)
    (h : normalize_company_name x = some y)
    (hno : ∀ pr ∈ company_name_variations, occursIn pr.1.data y.data = false) :
    normalize_person_names (normalize_person_names person_names) =
      normalize_person_names person_names ∧
    normalize_company_name (some y) = some y :=
  ⟨normalize_person_names_idem person_names, normalize_company_fixpoint x y h hno⟩

/-- Witness for C4's amended statement: a mixed person-name list and a
Japanese company name free of the Latin abbreviation keys. -/
theorem c4_normalize_idempotent_amended_witness :
    normalize_person_names (normalize_person_names ["田中　太郎", "123", "（山田）"]) =
      normalize_person_names ["田中　太郎", "123", "（山田）"] ∧
    normalize_company_name (some "株式会社サンプル") = some "株式会社サンプル" :=
  c4_normalize_idempotent_amended ["田中　太郎", "123", "（山田）"]
    (some "株式会社サンプル") "株式会社サンプル" (by decide) (by decide)
